import Mathlib

/-!
Verification of the lineage-graph engine exercised by the SageMaker lineage
notebook (`src/5_machine-learning/1_SageMaker/notebooks/sagemaker-lineage.ipynb`).

The notebook's own code consists of calls into the lineage API
(`Context.create`, `Action.create`, `Artifact.create`, `Association.create`,
`Association.list`, `Association.delete`, per-entity `delete`) together with two
functions defined in the notebook itself: `delete_associations` and
`delete_lineage_data`.  The backing store is the SageMaker lineage service,
whose behaviour is described by the specification (node store, edge store,
traversal engine, deletion orchestrator); those operations are modelled here
from the spec, while `delete_associations` and `delete_lineage_data` are
translated directly from the notebook source.
-/

set_option autoImplicit false

namespace SMLineage

/-- Subtype tag of an experiment entity (spec section 3). -/
inductive ExpTag where
  | experiment
  | trial
  | trialComponent
deriving DecidableEq, Repr

/-- Node kinds: Artifact, Action, Context, ExperimentEntity (spec section 3). -/
inductive Kind where
  | artifact
  | action
  | context
  | experimentEntity (tag : ExpTag)
deriving DecidableEq, Repr

/-- The four capacity classes of I3; all experiment entities form one class. -/
inductive KindClass where
  | artifact
  | action
  | context
  | experiment
deriving DecidableEq, Repr

/-- Capacity class of a kind (spec section 9: "capacity and relationship rules
switch on the tag"). -/
def kindClass : Kind → KindClass
  | .artifact => .artifact
  | .action => .action
  | .context => .context
  | .experimentEntity _ => .experiment

/-- Whether a kind is an experiment entity (relevant to invariant I2). -/
def isExpEntity : Kind → Bool
  | .experimentEntity _ => true
  | _ => false

/-- Association types (spec section 3 and the notebook comment
"Association Type can be Produced|DerivedFrom|AssociatedWith|ContributedTo"). -/
inductive AssocType where
  | produced
  | derivedFrom
  | associatedWith
  | contributedTo
deriving DecidableEq, Repr

/-- Error kinds of the engine (spec section 7). -/
inductive Err where
  | notFound
  | duplicateName
  | capacityExceeded
  | danglingEndpoint
  | invalidExperimentLink
  | hasDependentEdges
deriving DecidableEq, Repr

/-- Modelled from the spec: a node of the lineage graph (spec section 3).
Ids are issued by the external identifier mechanism, modelled by the state
counter; `manual` distinguishes manually created entities (subject to I3)
from automatically created ones. -/
structure Node where
  id : Nat
  kind : Kind
  name : String
  typeLabel : String
  sourceURI : Option String
  properties : List (String × String)
  createdAt : Nat
  manual : Bool
deriving DecidableEq, Repr

/-- Modelled from the spec: a directed association
`(sourceId, destinationId, associationType, createdAt)` (spec section 3).
The notebook shows `association_type` omitted, stored as `None`, hence the
`Option`.  `manual` marks manually created associations (I3). -/
structure Edge where
  src : Nat
  dst : Nat
  assocType : Option AssocType
  createdAt : Nat
  manual : Bool
deriving DecidableEq, Repr

/-- Modelled from the spec: the catalog state.  The edge store maintains a
forward index and a reverse index over the same edge set (spec section 4.2),
both kept consistent on every write.  `counter` models the external
identifier-issuing mechanism and clock (spec section 6). -/
structure State where
  nodes : List Node
  fwdIndex : List Edge
  revIndex : List Edge
  counter : Nat
deriving DecidableEq, Repr

/-- The empty catalog. -/
def initState : State := ⟨[], [], [], 0⟩

/-- Manually created nodes of a capacity class currently in the store (I3:
automatically created entities are excluded from the counters). -/
def countManualNodes (kc : KindClass) (s : State) : Nat :=
  s.nodes.countP (fun n => n.manual && (kindClass n.kind == kc))

/-- Manually created associations currently in the store (I3). -/
def countManualAssocs (s : State) : Nat :=
  s.fwdIndex.countP (fun e => e.manual)

/-- Per-class manual ceiling (notebook Caveats: Artifacts 6000, Contexts 500,
Actions 3000; no ceiling is stated for experiment entities). -/
def capOf : KindClass → Option Nat
  | .artifact => some 6000
  | .context => some 500
  | .action => some 3000
  | .experiment => none

/-- Whether the manual node ceiling of a class is already reached. -/
def nodeCapReached (kc : KindClass) (s : State) : Bool :=
  match capOf kc with
  | some cap => cap ≤ countManualNodes kc s
  | none => false

/-- Whether the manual association ceiling (6000) is already reached. -/
def assocCapReached (s : State) : Bool :=
  6000 ≤ countManualAssocs s

/-- Modelled from the spec: `CreateNode` (spec section 4.1; the notebook's
`Context.create`, `Action.create`, `Artifact.create`).  For manual creation it
fails with `CapacityExceeded` if the per-kind manual ceiling would be exceeded,
then with `DuplicateName` if a manual node of the same kind and name exists;
automatic creation is exempt from both checks (spec section 9).  A fresh id and
timestamp are assigned from the counter. -/
def createNode (k : Kind) (name typeLabel : String) (sourceURI : Option String)
    (props : List (String × String)) (man : Bool) (s : State) :
    Except Err (Node × State) :=
  let n : Node := ⟨s.counter, k, name, typeLabel, sourceURI, props, s.counter, man⟩
  let s' : State := ⟨s.nodes ++ [n], s.fwdIndex, s.revIndex, s.counter + 1⟩
  if man then
    if nodeCapReached (kindClass k) s then .error .capacityExceeded
    else if s.nodes.any (fun m => m.manual && (kindClass m.kind == kindClass k)
        && (m.name == name)) then .error .duplicateName
    else .ok (n, s')
  else .ok (n, s')

/-- Modelled from the spec: `GetNode` (spec section 4.1). -/
def getNode (id : Nat) (s : State) : Except Err Node :=
  match s.nodes.find? (fun m => m.id == id) with
  | some n => .ok n
  | none => .error .notFound

/-- Modelled from the spec: `ListNodes` (spec section 4.1; the notebook's
`Context.list`, `Action.list`, `Artifact.list`).  Nodes are stored in creation
order, so ascending creation-time order is the stored order. -/
def listNodes (kf : Option KindClass) (descending : Bool) (s : State) : List Node :=
  let l := match kf with
    | some kc => s.nodes.filter (fun n => kindClass n.kind == kc)
    | none => s.nodes
  if descending then l.reverse else l

/-- Modelled from the spec: `DeleteNode` (spec section 4.1).  Refuses with
`HasDependentEdges` while any edge in either index references the id (I4). -/
def deleteNode (id : Nat) (s : State) : Except Err State :=
  if s.nodes.any (fun m => m.id == id) then
    if s.fwdIndex.any (fun e => (e.src == id) || (e.dst == id))
        || s.revIndex.any (fun e => (e.src == id) || (e.dst == id)) then
      .error .hasDependentEdges
    else
      .ok ⟨s.nodes.filter (fun m => !(m.id == id)), s.fwdIndex, s.revIndex, s.counter⟩
  else .error .notFound

/-- Modelled from the spec: `CreateAssociation` (spec section 4.2; the
notebook's `Association.create`).  Validates I1 (`DanglingEndpoint`) and I2
(`InvalidExperimentLink`) before insertion, then the manual association ceiling
(I3, `CapacityExceeded`); on success the edge is appended to both indexes
atomically. -/
def createAssociation (src dst : Nat) (ty : Option AssocType) (man : Bool)
    (s : State) : Except Err (Edge × State) :=
  match s.nodes.find? (fun m => m.id == src), s.nodes.find? (fun m => m.id == dst) with
  | some a, some b =>
    if isExpEntity a.kind && isExpEntity b.kind then .error .invalidExperimentLink
    else if man && assocCapReached s then .error .capacityExceeded
    else
      let e : Edge := ⟨src, dst, ty, s.counter, man⟩
      .ok (e, ⟨s.nodes, s.fwdIndex ++ [e], s.revIndex ++ [e], s.counter + 1⟩)
  | _, _ => .error .danglingEndpoint

/-- Modelled from the spec: `ListAssociationsBySource` (spec section 4.2; the
notebook's `Association.list(source_arn=...)`), read from the forward index. -/
def listAssociationsBySource (src : Nat) (s : State) : List Edge :=
  s.fwdIndex.filter (fun e => e.src == src)

/-- Modelled from the spec: `ListAssociationsByDestination` (spec section 4.2;
the notebook's `Association.list(destination_arn=...)`), read from the reverse
index. -/
def listAssociationsByDestination (dst : Nat) (s : State) : List Edge :=
  s.revIndex.filter (fun e => e.dst == dst)

/-- Modelled from the spec: `DeleteAssociation` (spec section 4.2; the
notebook's `Association.delete`).  An edge's identity is the ordered pair
`(sourceId, destinationId)` (spec section 3); deletion removes every edge with
that pair from both indexes, and fails with `NotFound` if no such edge exists. -/
def deleteAssociation (a b : Nat) (s : State) : Except Err State :=
  if s.fwdIndex.any (fun e => (e.src == a) && (e.dst == b))
      || s.revIndex.any (fun e => (e.src == a) && (e.dst == b)) then
    .ok ⟨s.nodes,
      s.fwdIndex.filter (fun e => !((e.src == a) && (e.dst == b))),
      s.revIndex.filter (fun e => !((e.src == a) && (e.dst == b))),
      s.counter⟩
  else .error .notFound

/-- Modelled from the spec: edge deletion as used inside cascading deletion,
which "treats edge already absent as success (idempotent), not as an error"
(spec sections 4.4 and 7). -/
def deleteAssocIdem (a b : Nat) (s : State) : State :=
  match deleteAssociation a b s with
  | .ok s' => s'
  | .error _ => s

/-- Delete each listed edge in turn, tolerating already-absent edges
(the loop bodies of the notebook's `delete_associations`). -/
def delEdges : State → List Edge → State
  | s, [] => s
  | s, e :: l => delEdges (deleteAssocIdem e.src e.dst s) l

/-- From the notebook source: `delete_associations(arn)` deletes all incoming
associations of the node, then re-lists and deletes all outgoing ones. -/
def delete_associations (arn : Nat) (s : State) : State :=
  let s₁ := delEdges s (listAssociationsByDestination arn s)
  delEdges s₁ (listAssociationsBySource arn s₁)

/-- Modelled from the spec: `DeleteNodeCascade` (spec section 4.4).  If the
node does not exist, no edges are touched and `NotFound` is returned;
otherwise every touching edge is deleted via `delete_associations` and then
the node itself is deleted. -/
def deleteNodeCascade (id : Nat) (s : State) : Except Err State :=
  match getNode id s with
  | .error _ => .error .notFound
  | .ok _ => deleteNode id (delete_associations id s)

/-- One iteration of the notebook's per-entity cleanup loops:
`delete_associations(summary.arn)` followed by the entity's own `delete()`. -/
def purgeClassStep (st : State) (n : Node) : Except Err State :=
  deleteNode n.id (delete_associations n.id st)

/-- The body of one cleanup loop of `delete_lineage_data`, over a snapshot
list of entities. -/
def purgeFold : State → List Node → Except Err State
  | s, [] => .ok s
  | s, n :: l =>
    match purgeClassStep s n with
    | .error er => .error er
    | .ok s' => purgeFold s' l

/-- One cleanup loop of the notebook's `delete_lineage_data`: list every
entity of one class in the current state and cascade-delete each. -/
def purgeKindClass (kc : KindClass) (s : State) : Except Err State :=
  purgeFold s (s.nodes.filter (fun n => kindClass n.kind == kc))

/-- From the notebook source: `delete_lineage_data()` deletes all contexts,
then all actions, then all artifacts, cascading each entity's associations
before the entity itself.  Experiment entities are not purged. -/
def delete_lineage_data (s : State) : Except Err State :=
  match purgeKindClass .context s with
  | .error er => .error er
  | .ok s₁ =>
    match purgeKindClass .action s₁ with
    | .error er => .error er
    | .ok s₂ => purgeKindClass .artifact s₂

/-- Replace a node's properties if its id matches. -/
def updProps (id : Nat) (props : List (String × String)) (m : Node) : Node :=
  if m.id == id then
    ⟨m.id, m.kind, m.name, m.typeLabel, m.sourceURI, props, m.createdAt, m.manual⟩
  else m

/-- Modelled from the spec: property update, the only mutation of a node after
creation (spec section 3 lifecycle). -/
def setNodeProperties (id : Nat) (props : List (String × String)) (s : State) :
    Except Err State :=
  if s.nodes.any (fun m => m.id == id) then
    .ok ⟨s.nodes.map (updProps id props), s.fwdIndex, s.revIndex, s.counter⟩
  else .error .notFound

/-! ## Traversal engine (spec section 4.3) -/

/-- Traversal direction argument of `TraverseLineage`. -/
inductive Direction where
  | ancestors
  | descendants
  | both
deriving DecidableEq, Repr

/-- Direction through which a node was discovered ("tracking direction per
discovered edge", spec section 4.3). -/
inductive TrDir where
  | ancestor
  | descendant
deriving DecidableEq, Repr

/-- One tuple `(node, depth, edgeThatDiscoveredIt)` of a lineage report,
together with the direction of discovery (spec section 4.3). -/
structure Entry where
  nodeId : Nat
  depth : Nat
  dir : TrDir
  via : Edge
deriving DecidableEq, Repr

/-- Whether the traversal follows outgoing edges. -/
def wantDesc : Direction → Bool
  | .ancestors => false
  | _ => true

/-- Whether the traversal follows incoming edges. -/
def wantAnc : Direction → Bool
  | .descendants => false
  | _ => true

/-- Neighbour candidates of a node: descendants via the forward index, then
ancestors via the reverse index, each in edge creation order (spec
section 4.3: "ties broken by edge creation order within a node's adjacency
list"). -/
def cands (s : State) (dirn : Direction) (n : Nat) : List (Nat × TrDir × Edge) :=
  (if wantDesc dirn then
    (s.fwdIndex.filter (fun e => e.src == n)).map (fun e => (e.dst, TrDir.descendant, e))
  else []) ++
  (if wantAnc dirn then
    (s.revIndex.filter (fun e => e.dst == n)).map (fun e => (e.src, TrDir.ancestor, e))
  else [])

/-- Visit the not-yet-visited candidates in order: returns the grown visited
set and the new report entries (one per newly visited node). -/
def visitNew (dpth : Nat) (visited : List Nat) :
    List (Nat × TrDir × Edge) → List Nat × List Entry
  | [] => (visited, [])
  | (m, td, e) :: cs =>
    if m ∈ visited then visitNew dpth visited cs
    else
      let r := visitNew dpth (m :: visited) cs
      (r.1, ⟨m, dpth, td, e⟩ :: r.2)

/-- Whether a node popped at this depth must not be expanded further
(`maxDepth` bounds the number of edge-hops, spec section 4.3). -/
def atLimit (md : Option Nat) (d : Nat) : Bool :=
  match md with
  | none => false
  | some k => k ≤ d

/-- Breadth-first exploration with a visited-node set (spec section 4.3).
The first component is the report accumulated so far, the second the
unprocessed frontier; the fuel argument only bounds the recursion, and
`fuelFor` below always suffices to exhaust the frontier. -/
def bfs (s : State) (dirn : Direction) (md : Option Nat) :
    Nat → List Nat → List Entry → List (Nat × Nat) → List Entry × List (Nat × Nat)
  | 0, _, acc, queue => (acc, queue)
  | _ + 1, _, acc, [] => (acc, [])
  | fuel + 1, visited, acc, (n, d) :: rest =>
    if atLimit md d then bfs s dirn md fuel visited acc rest
    else
      let r := visitNew (d + 1) visited (cands s dirn n)
      bfs s dirn md fuel r.1 (acc ++ r.2)
        (rest ++ r.2.map (fun en => (en.nodeId, d + 1)))

/-- All node ids that can ever be enqueued by a traversal of this state. -/
def univ (s : State) : Finset Nat :=
  (s.fwdIndex.map (fun e => e.dst) ++ s.revIndex.map (fun e => e.src)).toFinset

/-- Fuel that always exhausts the breadth-first frontier. -/
def fuelFor (s : State) : Nat := (univ s).card + 1

/-- Modelled from the spec: `TraverseLineage` (spec section 4.3).  Breadth
first from `startId`; the visited set is seeded with `startId`; fails with
`NotFound` if `startId` does not resolve. -/
def traverseLineage (s : State) (startId : Nat) (dirn : Direction)
    (md : Option Nat) : Except Err (List Entry) :=
  match getNode startId s with
  | .error _ => .error .notFound
  | .ok _ => .ok (bfs s dirn md (fuelFor s) [startId] [] [(startId, 0)]).1

/-! ## Reachable states -/

/-- States reachable from the empty catalog through the engine's operations. -/
inductive Reachable : State → Prop where
  | init : Reachable initState
  | stepCreateNode {s : State} {k : Kind} {nm tl : String} {su : Option String}
      {pr : List (String × String)} {man : Bool} {p : Node × State} :
      Reachable s → createNode k nm tl su pr man s = .ok p → Reachable p.2
  | stepCreateAssociation {s : State} {a b : Nat} {ty : Option AssocType}
      {man : Bool} {p : Edge × State} :
      Reachable s → createAssociation a b ty man s = .ok p → Reachable p.2
  | stepDeleteNode {s s' : State} {id : Nat} :
      Reachable s → deleteNode id s = .ok s' → Reachable s'
  | stepDeleteAssociation {s s' : State} {a b : Nat} :
      Reachable s → deleteAssociation a b s = .ok s' → Reachable s'
  | stepSetNodeProperties {s s' : State} {id : Nat} {pr : List (String × String)} :
      Reachable s → setNodeProperties id pr s = .ok s' → Reachable s'
  | stepDeleteNodeCascade {s s' : State} {id : Nat} :
      Reachable s → deleteNodeCascade id s = .ok s' → Reachable s'
  | stepPurge {s s' : State} :
      Reachable s → delete_lineage_data s = .ok s' → Reachable s'

/-! ## Scenario builders (used by the concrete test scenarios) -/

/-- Create a manual node and keep the old state if creation fails. -/
def stepNode (k : Kind) (nm : String) (s : State) : State :=
  match createNode k nm "t" none [] true s with
  | .ok p => p.2
  | .error _ => s

/-- Create a manual association and keep the old state if creation fails. -/
def stepAssoc (a b : Nat) (ty : Option AssocType) (s : State) : State :=
  match createAssociation a b ty true s with
  | .ok p => p.2
  | .error _ => s

/-- The spec's test scenario (spec section 8): Context `C`, Action `A`,
`C→A` typed `AssociatedWith`; Artifacts `I1`, `I2` with `I1→A`, `I2→A`
(default type); Artifact `M` with `A→M`.  Ids: C = 0, A = 1, I1 = 3,
I2 = 4, M = 7. -/
def scenarioState : State :=
  stepAssoc 1 7 none
    (stepNode .artifact "M"
      (stepAssoc 4 1 none
        (stepAssoc 3 1 none
          (stepNode .artifact "I2"
            (stepNode .artifact "I1"
              (stepAssoc 0 1 (some .associatedWith)
                (stepNode .action "A"
                  (stepNode .context "C" initState))))))))

/-- Two experiment entities (an Experiment with id 0 and a Trial with id 1)
and nothing else. -/
def expState : State :=
  stepNode (.experimentEntity .trial) "T"
    (stepNode (.experimentEntity .experiment) "E" initState)

/-- An Experiment (id 0), an Artifact (id 1), and one association between
them. -/
def mixState : State :=
  stepAssoc 0 1 none
    (stepNode .artifact "a"
      (stepNode (.experimentEntity .experiment) "E" initState))

/-- Two artifacts (ids 0 and 1) and nothing else. -/
def capState0 : State := stepNode .artifact "b" (stepNode .artifact "a" initState)

/-- Create one more manual association `0 → 1` (a no-op once it fails). -/
def capStep (s : State) : State := stepAssoc 0 1 none s

/-- The state reached after `n` attempts to create a manual association. -/
def capStateN (n : Nat) : State := capStep^[n] capState0

/-- The scenario state with one more association `C → M`. -/
def scenarioPlus : State := stepAssoc 0 7 (some .produced) scenarioState

/-- The scenario state after cascade-deleting the Action `A` (id 1). -/
def cascadedScenario : State :=
  match deleteNodeCascade 1 scenarioState with
  | .ok s' => s'
  | .error _ => scenarioState

/-! ## Characterizations of the operations -/

theorem getNode_eq_ok {id : Nat} {s : State} {n : Node} :
    getNode id s = .ok n ↔ s.nodes.find? (fun m => m.id == id) = some n := by
  unfold getNode
  cases h : s.nodes.find? (fun m => m.id == id) <;> simp [h]

theorem createNode_ok_inv {k : Kind} {nm tl : String} {su : Option String}
    {pr : List (String × String)} {man : Bool} {s : State} {n : Node} {s' : State}
    (h : createNode k nm tl su pr man s = .ok (n, s')) :
    n = ⟨s.counter, k, nm, tl, su, pr, s.counter, man⟩ ∧
    s' = ⟨s.nodes ++ [n], s.fwdIndex, s.revIndex, s.counter + 1⟩ ∧
    (man = true → nodeCapReached (kindClass k) s = false) := by
  unfold createNode at h
  split at h
  · split at h
    · exact absurd h (by simp)
    · split at h
      · exact absurd h (by simp)
      · simp only [Except.ok.injEq, Prod.mk.injEq] at h
        refine ⟨h.1.symm, ?_, fun _ => by simp_all⟩
        rw [← h.2, ← h.1]
  · simp only [Except.ok.injEq, Prod.mk.injEq] at h
    refine ⟨h.1.symm, ?_, fun hm => by simp_all⟩
    rw [← h.2, ← h.1]

theorem createNode_auto {k : Kind} {nm tl : String} {su : Option String}
    {pr : List (String × String)} {s : State} :
    createNode k nm tl su pr false s =
      .ok (⟨s.counter, k, nm, tl, su, pr, s.counter, false⟩,
        ⟨s.nodes ++ [⟨s.counter, k, nm, tl, su, pr, s.counter, false⟩],
          s.fwdIndex, s.revIndex, s.counter + 1⟩) := rfl

theorem createNode_capErr {k : Kind} {nm tl : String} {su : Option String}
    {pr : List (String × String)} {s : State}
    (h : nodeCapReached (kindClass k) s = true) :
    createNode k nm tl su pr true s = .error .capacityExceeded := by
  unfold createNode
  simp [h]

theorem createAssociation_ok_inv {a b : Nat} {ty : Option AssocType} {man : Bool}
    {s : State} {e : Edge} {s' : State}
    (h : createAssociation a b ty man s = .ok (e, s')) :
    e = ⟨a, b, ty, s.counter, man⟩ ∧
    s' = ⟨s.nodes, s.fwdIndex ++ [e], s.revIndex ++ [e], s.counter + 1⟩ ∧
    ∃ nA nB, s.nodes.find? (fun m => m.id == a) = some nA ∧
      s.nodes.find? (fun m => m.id == b) = some nB ∧
      (isExpEntity nA.kind && isExpEntity nB.kind) = false ∧
      (man && assocCapReached s) = false := by
  unfold createAssociation at h
  split at h
  · next nA nB ha hb =>
    split at h
    · exact absurd h (by simp)
    · next hx =>
      split at h
      · exact absurd h (by simp)
      · next hc =>
        simp only [Bool.not_eq_true] at hx hc
        simp only [Except.ok.injEq, Prod.mk.injEq] at h
        refine ⟨h.1.symm, ?_, nA, nB, ha, hb, hx, hc⟩
        rw [← h.2, ← h.1]
  · exact absurd h (by simp)

theorem createAssociation_ok {a b : Nat} {ty : Option AssocType} {man : Bool}
    {s : State} {nA nB : Node}
    (ha : s.nodes.find? (fun m => m.id == a) = some nA)
    (hb : s.nodes.find? (fun m => m.id == b) = some nB)
    (hx : (isExpEntity nA.kind && isExpEntity nB.kind) = false)
    (hc : (man && assocCapReached s) = false) :
    createAssociation a b ty man s =
      .ok (⟨a, b, ty, s.counter, man⟩,
        ⟨s.nodes, s.fwdIndex ++ [⟨a, b, ty, s.counter, man⟩],
          s.revIndex ++ [⟨a, b, ty, s.counter, man⟩], s.counter + 1⟩) := by
  unfold createAssociation
  rw [ha, hb]
  simp [hx, hc]

theorem createAssociation_expErr {a b : Nat} {ty : Option AssocType} {man : Bool}
    {s : State} {nA nB : Node}
    (ha : s.nodes.find? (fun m => m.id == a) = some nA)
    (hb : s.nodes.find? (fun m => m.id == b) = some nB)
    (hA : isExpEntity nA.kind = true) (hB : isExpEntity nB.kind = true) :
    createAssociation a b ty man s = .error .invalidExperimentLink := by
  unfold createAssociation
  rw [ha, hb]
  simp [hA, hB]

theorem createAssociation_capErr {a b : Nat} {ty : Option AssocType} {s : State}
    {nA nB : Node}
    (ha : s.nodes.find? (fun m => m.id == a) = some nA)
    (hb : s.nodes.find? (fun m => m.id == b) = some nB)
    (hx : (isExpEntity nA.kind && isExpEntity nB.kind) = false)
    (hc : assocCapReached s = true) :
    createAssociation a b ty true s = .error .capacityExceeded := by
  unfold createAssociation
  rw [ha, hb]
  simp [hx, hc]

theorem deleteNode_ok_inv {id : Nat} {s s' : State} (h : deleteNode id s = .ok s') :
    s' = ⟨s.nodes.filter (fun m => !(m.id == id)), s.fwdIndex, s.revIndex, s.counter⟩ ∧
    s.nodes.any (fun m => m.id == id) = true ∧
    (s.fwdIndex.any (fun e => (e.src == id) || (e.dst == id))
      || s.revIndex.any (fun e => (e.src == id) || (e.dst == id))) = false := by
  unfold deleteNode at h
  split at h
  · split at h
    · exact absurd h (by simp)
    · simp only [Except.ok.injEq] at h
      exact ⟨h.symm, by simp_all, by simp_all⟩
  · exact absurd h (by simp)

theorem deleteNode_ok {id : Nat} {s : State}
    (hex : s.nodes.any (fun m => m.id == id) = true)
    (hdep : (s.fwdIndex.any (fun e => (e.src == id) || (e.dst == id))
      || s.revIndex.any (fun e => (e.src == id) || (e.dst == id))) = false) :
    deleteNode id s =
      .ok ⟨s.nodes.filter (fun m => !(m.id == id)), s.fwdIndex, s.revIndex, s.counter⟩ := by
  unfold deleteNode
  simp only [hex, if_true]
  simp [Bool.or_eq_false_iff.mp hdep]

theorem deleteAssociation_ok_inv {a b : Nat} {s s' : State}
    (h : deleteAssociation a b s = .ok s') :
    s' = ⟨s.nodes,
      s.fwdIndex.filter (fun e => !((e.src == a) && (e.dst == b))),
      s.revIndex.filter (fun e => !((e.src == a) && (e.dst == b))),
      s.counter⟩ := by
  unfold deleteAssociation at h
  split at h
  · simpa using h.symm
  · exact absurd h (by simp)

theorem deleteAssocIdem_eq_filter (a b : Nat) (s : State) :
    deleteAssocIdem a b s = ⟨s.nodes,
      s.fwdIndex.filter (fun e => !((e.src == a) && (e.dst == b))),
      s.revIndex.filter (fun e => !((e.src == a) && (e.dst == b))),
      s.counter⟩ := by
  unfold deleteAssocIdem
  cases h : deleteAssociation a b s with
  | ok s' => exact deleteAssociation_ok_inv h
  | error er =>
    have hno : (s.fwdIndex.any (fun e => (e.src == a) && (e.dst == b))
        || s.revIndex.any (fun e => (e.src == a) && (e.dst == b))) = false := by
      unfold deleteAssociation at h
      split at h
      · exact absurd h (by simp)
      · next hcond => simpa using hcond
    rw [Bool.or_eq_false_iff] at hno
    have hf : s.fwdIndex.filter (fun e => !((e.src == a) && (e.dst == b))) = s.fwdIndex := by
      apply List.filter_eq_self.mpr
      intro e he
      have h2 := (List.any_eq_false.mp hno.1) e he
      cases hsrc : (e.src == a) <;> cases hdst : (e.dst == b) <;> simp_all
    have hr : s.revIndex.filter (fun e => !((e.src == a) && (e.dst == b))) = s.revIndex := by
      apply List.filter_eq_self.mpr
      intro e he
      have h2 := (List.any_eq_false.mp hno.2) e he
      cases hsrc : (e.src == a) <;> cases hdst : (e.dst == b) <;> simp_all
    rw [hf, hr]

theorem delEdges_eq (L : List Edge) (s : State) :
    delEdges s L = ⟨s.nodes,
      s.fwdIndex.filter (fun e => !(L.any (fun d => (e.src == d.src) && (e.dst == d.dst)))),
      s.revIndex.filter (fun e => !(L.any (fun d => (e.src == d.src) && (e.dst == d.dst)))),
      s.counter⟩ := by
  induction L generalizing s with
  | nil => simp [delEdges]
  | cons d L ih =>
    simp only [delEdges]
    rw [ih, deleteAssocIdem_eq_filter]
    simp only [List.filter_filter]
    congr 1
    all_goals
      exact List.filter_congr (fun e _ => by
        cases h1 : (L.any fun x => e.src == x.src && e.dst == x.dst) <;>
        cases h2 : (e.src == d.src && e.dst == d.dst) <;>
          simp [List.any_cons, h1, h2])

theorem delete_associations_nodes (id : Nat) (s : State) :
    (delete_associations id s).nodes = s.nodes := by
  simp [delete_associations, delEdges_eq]

theorem delete_associations_counter (id : Nat) (s : State) :
    (delete_associations id s).counter = s.counter := by
  simp [delete_associations, delEdges_eq]

theorem delete_associations_consistent {id : Nat} {s : State}
    (h : s.fwdIndex = s.revIndex) :
    (delete_associations id s).fwdIndex = (delete_associations id s).revIndex := by
  simp [delete_associations, delEdges_eq, h]

theorem delete_associations_mem {id : Nat} {s : State} {e : Edge}
    (he : e ∈ (delete_associations id s).fwdIndex) : e ∈ s.fwdIndex := by
  simp only [delete_associations, delEdges_eq, List.mem_filter] at he
  exact he.1.1

theorem delete_associations_mem_rev {id : Nat} {s : State} {e : Edge}
    (he : e ∈ (delete_associations id s).revIndex) : e ∈ s.revIndex := by
  simp only [delete_associations, delEdges_eq, List.mem_filter] at he
  exact he.1.1

theorem delete_associations_clears {id : Nat} {s : State} {e : Edge}
    (h : s.fwdIndex = s.revIndex)
    (he : e ∈ (delete_associations id s).fwdIndex) :
    e.src ≠ id ∧ e.dst ≠ id := by
  simp only [delete_associations, delEdges_eq, listAssociationsBySource,
    listAssociationsByDestination] at he
  obtain ⟨hin1, h2⟩ := List.mem_filter.mp he
  obtain ⟨hm, h1⟩ := List.mem_filter.mp hin1
  rw [Bool.not_eq_true'] at h1 h2
  constructor
  · intro hsrc
    have hc := List.any_eq_false.mp h2 e (List.mem_filter.mpr ⟨hin1, by simp [hsrc]⟩)
    simp at hc
  · intro hdst
    have hc := List.any_eq_false.mp h1 e (List.mem_filter.mpr ⟨h ▸ hm, by simp [hdst]⟩)
    simp at hc

/-! ## The engine invariant over reachable states -/

/-- Invariant of the catalog: consistent paired indexes (section 4.2), unique
bounded node ids, live edge endpoints (I1), no edge between two experiment
entities (I2), and the manual capacity ceilings (I3). -/
structure Inv (s : State) : Prop where
  cons : s.fwdIndex = s.revIndex
  nodup : (s.nodes.map (fun n => n.id)).Nodup
  bounded : ∀ n ∈ s.nodes, n.id < s.counter
  live : ∀ e ∈ s.fwdIndex, (∃ a ∈ s.nodes, a.id = e.src) ∧ (∃ b ∈ s.nodes, b.id = e.dst)
  noExpExp : ∀ e ∈ s.fwdIndex, ∀ a ∈ s.nodes, ∀ b ∈ s.nodes,
    a.id = e.src → b.id = e.dst →
    ¬(isExpEntity a.kind = true ∧ isExpEntity b.kind = true)
  caps : countManualNodes .artifact s ≤ 6000 ∧ countManualNodes .context s ≤ 500 ∧
    countManualNodes .action s ≤ 3000 ∧ countManualAssocs s ≤ 6000

theorem inv_init : Inv initState :=
  ⟨rfl, by simp [initState], by simp [initState], by simp [initState],
    by simp [initState], by simp [initState, countManualNodes, countManualAssocs]⟩

theorem id_inj {s : State} (hn : (s.nodes.map (fun n => n.id)).Nodup)
    {m n : Node} (hm : m ∈ s.nodes) (hn2 : n ∈ s.nodes) (h : m.id = n.id) : m = n :=
  List.inj_on_of_nodup_map hn hm hn2 h

theorem countP_concat (p : Node → Bool) (l : List Node) (n : Node) :
    List.countP p (l ++ [n]) = List.countP p l + (if p n then 1 else 0) := by
  simp [List.countP_append, List.countP_cons]

theorem nodeCap_lt {kc : KindClass} {s : State} {cap : Nat} (hcap : capOf kc = some cap)
    (h : nodeCapReached kc s = false) : countManualNodes kc s < cap := by
  unfold nodeCapReached at h
  rw [hcap] at h
  simp at h
  omega

theorem capBoundStep {s : State} {nd : Node} {kc : KindClass} {cap : Nat}
    (hcap : capOf kc = some cap)
    (hok : nd.manual = true → nodeCapReached (kindClass nd.kind) s = false)
    (hbound : countManualNodes kc s ≤ cap) :
    countManualNodes kc s + (if nd.manual && (kindClass nd.kind == kc) then 1 else 0) ≤ cap := by
  by_cases hm : (nd.manual && (kindClass nd.kind == kc)) = true
  · rw [if_pos hm]
    rw [Bool.and_eq_true, beq_iff_eq] at hm
    have h2 := hok hm.1
    rw [hm.2] at h2
    have := nodeCap_lt hcap h2
    omega
  · rw [if_neg hm]
    exact hbound

theorem inv_createNode {k : Kind} {nm tl : String} {su : Option String}
    {pr : List (String × String)} {man : Bool} {s : State} {p : Node × State}
    (h : createNode k nm tl su pr man s = .ok p) (hi : Inv s) : Inv p.2 := by
  obtain ⟨hn, hs, hcap⟩ := @createNode_ok_inv k nm tl su pr man s p.1 p.2 h
  rw [hs, hn]
  set nd : Node := ⟨s.counter, k, nm, tl, su, pr, s.counter, man⟩ with hnd
  constructor
  · exact hi.cons
  · rw [List.map_append]
    refine List.Nodup.append hi.nodup (by simp) ?_
    intro x hx hx2
    simp at hx2
    obtain ⟨m, hmm, hmid⟩ := List.mem_map.mp hx
    have := hi.bounded m hmm
    omega
  · intro m hm
    show m.id < s.counter + 1
    rcases List.mem_append.mp hm with hm' | hm'
    · have := hi.bounded m hm'
      omega
    · simp at hm'
      subst hm'
      simp
  · intro e he
    obtain ⟨⟨a, ha, ha2⟩, ⟨b, hb, hb2⟩⟩ := hi.live e he
    exact ⟨⟨a, List.mem_append_left _ ha, ha2⟩, ⟨b, List.mem_append_left _ hb, hb2⟩⟩
  · intro e he a ha b hb hae hbe
    have hlt : ∀ c : Node, c ∈ s.nodes ++ [nd] → c.id = e.src ∨ c.id = e.dst →
        c ∈ s.nodes := by
      intro c hc hcid
      rcases List.mem_append.mp hc with hc' | hc'
      · exact hc'
      · simp at hc'
        subst hc'
        obtain ⟨⟨a0, ha0, ha02⟩, ⟨b0, hb0, hb02⟩⟩ := hi.live e he
        have hba := hi.bounded a0 ha0
        have hbb := hi.bounded b0 hb0
        rcases hcid with hcid | hcid <;> simp [hnd] at hcid <;> omega
    exact hi.noExpExp e he a (hlt a ha (Or.inl hae)) b (hlt b hb (Or.inr hbe)) hae hbe
  · have hcnt : ∀ kc : KindClass, countManualNodes kc ⟨s.nodes ++ [nd],
        s.fwdIndex, s.revIndex, s.counter + 1⟩ =
        countManualNodes kc s + (if nd.manual && (kindClass nd.kind == kc) then 1 else 0) := by
      intro kc
      exact countP_concat _ s.nodes nd
    have hassoc : countManualAssocs ⟨s.nodes ++ [nd], s.fwdIndex, s.revIndex,
        s.counter + 1⟩ = countManualAssocs s := rfl
    have hok : nd.manual = true → nodeCapReached (kindClass nd.kind) s = false := hcap
    obtain ⟨c1, c2, c3, c4⟩ := hi.caps
    refine ⟨?_, ?_, ?_, by rw [hassoc]; exact c4⟩
    · rw [hcnt]
      exact capBoundStep rfl hok c1
    · rw [hcnt]
      exact capBoundStep rfl hok c2
    · rw [hcnt]
      exact capBoundStep rfl hok c3

theorem assocCap_lt {s : State} (h : assocCapReached s = false) :
    countManualAssocs s < 6000 := by
  unfold assocCapReached at h
  simp at h
  omega

theorem updProps_id (id : Nat) (pr : List (String × String)) (m : Node) :
    (updProps id pr m).id = m.id := by
  unfold updProps
  split <;> rfl

theorem updProps_kind (id : Nat) (pr : List (String × String)) (m : Node) :
    (updProps id pr m).kind = m.kind := by
  unfold updProps
  split <;> rfl

theorem updProps_manual (id : Nat) (pr : List (String × String)) (m : Node) :
    (updProps id pr m).manual = m.manual := by
  unfold updProps
  split <;> rfl

theorem setNodeProperties_ok_inv {id : Nat} {pr : List (String × String)}
    {s s' : State} (h : setNodeProperties id pr s = .ok s') :
    s' = ⟨s.nodes.map (updProps id pr), s.fwdIndex, s.revIndex, s.counter⟩ := by
  unfold setNodeProperties at h
  split at h
  · simpa using h.symm
  · exact absurd h (by simp)

theorem inv_createAssociation {a b : Nat} {ty : Option AssocType} {man : Bool}
    {s : State} {p : Edge × State}
    (h : createAssociation a b ty man s = .ok p) (hi : Inv s) : Inv p.2 := by
  obtain ⟨hE, hS, nA, nB, ha, hb, hx, hc⟩ :=
    @createAssociation_ok_inv a b ty man s p.1 p.2 h
  rw [hS, hE]
  set ed : Edge := ⟨a, b, ty, s.counter, man⟩ with hed
  have hnA : nA ∈ s.nodes := List.mem_of_find?_eq_some ha
  have hnB : nB ∈ s.nodes := List.mem_of_find?_eq_some hb
  have hnAid : nA.id = a := by simpa using List.find?_some ha
  have hnBid : nB.id = b := by simpa using List.find?_some hb
  constructor
  · show s.fwdIndex ++ [ed] = s.revIndex ++ [ed]
    rw [hi.cons]
  · exact hi.nodup
  · intro m hm
    show m.id < s.counter + 1
    have := hi.bounded m hm
    omega
  · intro e he
    rcases List.mem_append.mp he with he' | he'
    · exact hi.live e he'
    · simp at he'
      subst he'
      exact ⟨⟨nA, hnA, hnAid⟩, ⟨nB, hnB, hnBid⟩⟩
  · intro e he a0 ha0 b0 hb0 h1 h2
    rcases List.mem_append.mp he with he' | he'
    · exact hi.noExpExp e he' a0 ha0 b0 hb0 h1 h2
    · simp at he'
      subst he'
      have h1' : a0.id = a := h1
      have h2' : b0.id = b := h2
      have hA : a0 = nA := id_inj hi.nodup ha0 hnA (h1'.trans hnAid.symm)
      have hB : b0 = nB := id_inj hi.nodup hb0 hnB (h2'.trans hnBid.symm)
      subst hA hB
      intro hcon
      rw [hcon.1, hcon.2] at hx
      simp at hx
  · obtain ⟨c1, c2, c3, c4⟩ := hi.caps
    refine ⟨c1, c2, c3, ?_⟩
    have hstep : countManualAssocs ⟨s.nodes, s.fwdIndex ++ [ed],
        s.revIndex ++ [ed], s.counter + 1⟩ =
        countManualAssocs s + (if ed.manual then 1 else 0) := by
      show List.countP _ (s.fwdIndex ++ [ed]) = _
      simp [List.countP_append, List.countP_cons, countManualAssocs]
    rw [hstep]
    cases man with
    | true =>
      have hlt := assocCap_lt (by simpa using hc)
      show countManualAssocs s + 1 ≤ 6000
      omega
    | false =>
      show countManualAssocs s + 0 ≤ 6000
      omega

theorem inv_filterEdges (p : Edge → Bool) {s : State} (hi : Inv s) :
    Inv ⟨s.nodes, s.fwdIndex.filter p, s.revIndex.filter p, s.counter⟩ := by
  constructor
  · show s.fwdIndex.filter p = s.revIndex.filter p
    rw [hi.cons]
  · exact hi.nodup
  · exact hi.bounded
  · intro e he
    exact hi.live e (List.mem_of_mem_filter he)
  · intro e he a0 ha0 b0 hb0 h1 h2
    exact hi.noExpExp e (List.mem_of_mem_filter he) a0 ha0 b0 hb0 h1 h2
  · obtain ⟨c1, c2, c3, c4⟩ := hi.caps
    refine ⟨c1, c2, c3, ?_⟩
    show List.countP _ (s.fwdIndex.filter p) ≤ 6000
    exact le_trans (List.Sublist.countP_le _ (List.filter_sublist _)) c4

theorem inv_deleteNode {id : Nat} {s s' : State}
    (h : deleteNode id s = .ok s') (hi : Inv s) : Inv s' := by
  obtain ⟨hS, hex, hdep⟩ := deleteNode_ok_inv h
  rw [hS]
  rw [Bool.or_eq_false_iff] at hdep
  have hdf : ∀ e ∈ s.fwdIndex, e.src ≠ id ∧ e.dst ≠ id := by
    intro e he
    have h2 := List.any_eq_false.mp hdep.1 e he
    constructor <;> intro hx <;> simp [hx] at h2
  constructor
  · exact hi.cons
  · exact List.Nodup.sublist
      (List.Sublist.map _ (List.filter_sublist _)) hi.nodup
  · intro m hm
    exact hi.bounded m (List.mem_of_mem_filter hm)
  · intro e he
    obtain ⟨⟨a0, ha0, ha02⟩, ⟨b0, hb0, hb02⟩⟩ := hi.live e he
    have hde := hdf e he
    refine ⟨⟨a0, ?_, ha02⟩, ⟨b0, ?_, hb02⟩⟩
    · exact List.mem_filter.mpr ⟨ha0, by simp [ha02, hde.1]⟩
    · exact List.mem_filter.mpr ⟨hb0, by simp [hb02, hde.2]⟩
  · intro e he a0 ha0 b0 hb0 h1 h2
    exact hi.noExpExp e he a0 (List.mem_of_mem_filter ha0) b0
      (List.mem_of_mem_filter hb0) h1 h2
  · obtain ⟨c1, c2, c3, c4⟩ := hi.caps
    have hle : ∀ kc : KindClass, countManualNodes kc
        ⟨s.nodes.filter (fun m => !(m.id == id)), s.fwdIndex, s.revIndex, s.counter⟩ ≤
        countManualNodes kc s := by
      intro kc
      exact List.Sublist.countP_le _ (List.filter_sublist _)
    exact ⟨le_trans (hle _) c1, le_trans (hle _) c2, le_trans (hle _) c3, c4⟩

theorem inv_deleteAssociation {a b : Nat} {s s' : State}
    (h : deleteAssociation a b s = .ok s') (hi : Inv s) : Inv s' := by
  rw [deleteAssociation_ok_inv h]
  exact inv_filterEdges _ hi

theorem inv_deleteAssocIdem (a b : Nat) {s : State} (hi : Inv s) :
    Inv (deleteAssocIdem a b s) := by
  rw [deleteAssocIdem_eq_filter]
  exact inv_filterEdges _ hi

theorem inv_delEdges (L : List Edge) {s : State} (hi : Inv s) :
    Inv (delEdges s L) := by
  rw [delEdges_eq]
  exact inv_filterEdges _ hi

theorem inv_delete_associations (id : Nat) {s : State} (hi : Inv s) :
    Inv (delete_associations id s) :=
  inv_delEdges _ (inv_delEdges _ hi)

theorem inv_setNodeProperties {id : Nat} {pr : List (String × String)}
    {s s' : State} (h : setNodeProperties id pr s = .ok s') (hi : Inv s) : Inv s' := by
  rw [setNodeProperties_ok_inv h]
  constructor
  · exact hi.cons
  · have hmap : (s.nodes.map (updProps id pr)).map (fun n => n.id) =
        s.nodes.map (fun n => n.id) := by
      rw [List.map_map]
      exact List.map_congr_left (fun m _ => updProps_id id pr m)
    show ((s.nodes.map (updProps id pr)).map (fun n => n.id)).Nodup
    rw [hmap]
    exact hi.nodup
  · intro m hm
    obtain ⟨m0, hm0, hm02⟩ := List.mem_map.mp hm
    show m.id < s.counter
    rw [← hm02, updProps_id]
    exact hi.bounded m0 hm0
  · intro e he
    obtain ⟨⟨a0, ha0, ha02⟩, ⟨b0, hb0, hb02⟩⟩ := hi.live e he
    refine ⟨⟨updProps id pr a0, List.mem_map_of_mem _ ha0, ?_⟩,
      ⟨updProps id pr b0, List.mem_map_of_mem _ hb0, ?_⟩⟩
    · rw [updProps_id]; exact ha02
    · rw [updProps_id]; exact hb02
  · intro e he a0 ha0 b0 hb0 h1 h2
    obtain ⟨a1, ha1, ha12⟩ := List.mem_map.mp ha0
    obtain ⟨b1, hb1, hb12⟩ := List.mem_map.mp hb0
    have h1' : a1.id = e.src := by rw [← updProps_id id pr a1, ha12]; exact h1
    have h2' : b1.id = e.dst := by rw [← updProps_id id pr b1, hb12]; exact h2
    intro hcon
    refine hi.noExpExp e he a1 ha1 b1 hb1 h1' h2' ⟨?_, ?_⟩
    · rw [← updProps_kind id pr a1, ha12]; exact hcon.1
    · rw [← updProps_kind id pr b1, hb12]; exact hcon.2
  · obtain ⟨c1, c2, c3, c4⟩ := hi.caps
    have hcnt : ∀ kc : KindClass, countManualNodes kc
        ⟨s.nodes.map (updProps id pr), s.fwdIndex, s.revIndex, s.counter⟩ =
        countManualNodes kc s := by
      intro kc
      show List.countP _ (s.nodes.map (updProps id pr)) = _
      rw [List.countP_map]
      exact List.countP_congr (fun m _ => by
        simp [Function.comp, updProps_kind, updProps_manual])
    exact ⟨by rw [hcnt]; exact c1, by rw [hcnt]; exact c2, by rw [hcnt]; exact c3, c4⟩

theorem inv_deleteNodeCascade {id : Nat} {s s' : State}
    (h : deleteNodeCascade id s = .ok s') (hi : Inv s) : Inv s' := by
  unfold deleteNodeCascade at h
  split at h
  · exact absurd h (by simp)
  · exact inv_deleteNode h (inv_delete_associations id hi)

theorem inv_purgeFold {L : List Node} {s s' : State}
    (h : purgeFold s L = .ok s') (hi : Inv s) : Inv s' := by
  induction L generalizing s with
  | nil =>
    simp only [purgeFold, Except.ok.injEq] at h
    rw [← h]
    exact hi
  | cons n L ih =>
    simp only [purgeFold] at h
    split at h
    · exact absurd h (by simp)
    · next mid hmid =>
      exact ih h (inv_deleteNode hmid (inv_delete_associations n.id hi))

theorem inv_purgeKindClass {kc : KindClass} {s s' : State}
    (h : purgeKindClass kc s = .ok s') (hi : Inv s) : Inv s' :=
  inv_purgeFold h hi

theorem inv_delete_lineage_data {s s' : State}
    (h : delete_lineage_data s = .ok s') (hi : Inv s) : Inv s' := by
  unfold delete_lineage_data at h
  split at h
  · exact absurd h (by simp)
  · next s₁ h1 =>
    split at h
    · exact absurd h (by simp)
    · next s₂ h2 =>
      exact inv_purgeKindClass h
        (inv_purgeKindClass h2 (inv_purgeKindClass h1 hi))

theorem inv_of_reachable {s : State} (h : Reachable s) : Inv s := by
  induction h with
  | init => exact inv_init
  | stepCreateNode _ h2 ih => exact inv_createNode h2 ih
  | stepCreateAssociation _ h2 ih => exact inv_createAssociation h2 ih
  | stepDeleteNode _ h2 ih => exact inv_deleteNode h2 ih
  | stepDeleteAssociation _ h2 ih => exact inv_deleteAssociation h2 ih
  | stepSetNodeProperties _ h2 ih => exact inv_setNodeProperties h2 ih
  | stepDeleteNodeCascade _ h2 ih => exact inv_deleteNodeCascade h2 ih
  | stepPurge _ h2 ih => exact inv_delete_lineage_data h2 ih

/-! ## Behaviour of the bulk purge -/

theorem isExp_iff_class (k : Kind) :
    isExpEntity k = true ↔ kindClass k = KindClass.experiment := by
  cases k <;> simp [isExpEntity, kindClass]

theorem purgeClassStep_spec {st : State} {n : Node} (hc : st.fwdIndex = st.revIndex)
    (hn : n ∈ st.nodes) :
    ∃ st', purgeClassStep st n = .ok st' ∧
      st'.nodes = st.nodes.filter (fun m => !(m.id == n.id)) ∧
      st'.counter = st.counter ∧
      st'.fwdIndex = st'.revIndex ∧
      (∀ e ∈ st'.fwdIndex, e ∈ st.fwdIndex ∧ e.src ≠ n.id ∧ e.dst ≠ n.id) := by
  have hdac : (delete_associations n.id st).fwdIndex =
      (delete_associations n.id st).revIndex := delete_associations_consistent hc
  have hex : (delete_associations n.id st).nodes.any (fun m => m.id == n.id) = true := by
    rw [delete_associations_nodes]
    exact List.any_eq_true.mpr ⟨n, hn, by simp⟩
  have hfa : (delete_associations n.id st).fwdIndex.any
      (fun e => (e.src == n.id) || (e.dst == n.id)) = false := by
    apply List.any_eq_false.mpr
    intro e he
    have hcl := delete_associations_clears hc he
    simp [hcl.1, hcl.2]
  have hdep : ((delete_associations n.id st).fwdIndex.any
        (fun e => (e.src == n.id) || (e.dst == n.id))
      || (delete_associations n.id st).revIndex.any
        (fun e => (e.src == n.id) || (e.dst == n.id))) = false := by
    rw [← hdac, hfa]
    simp
  have hok := deleteNode_ok hex hdep
  refine ⟨_, hok, ?_, ?_, ?_, ?_⟩
  · show (delete_associations n.id st).nodes.filter (fun m => !(m.id == n.id)) =
      st.nodes.filter (fun m => !(m.id == n.id))
    rw [delete_associations_nodes]
  · exact delete_associations_counter n.id st
  · exact hdac
  · intro e he
    have hcl := delete_associations_clears hc he
    exact ⟨delete_associations_mem he, hcl.1, hcl.2⟩

theorem purgeFold_spec : ∀ (L : List Node) (st : State),
    st.fwdIndex = st.revIndex →
    (st.nodes.map (fun n => n.id)).Nodup →
    (∀ n ∈ L, n ∈ st.nodes) →
    (L.map (fun n => n.id)).Nodup →
    ∃ st', purgeFold st L = .ok st' ∧
      st'.fwdIndex = st'.revIndex ∧
      (st'.nodes.map (fun n => n.id)).Nodup ∧
      st'.counter = st.counter ∧
      st'.nodes = st.nodes.filter (fun m => !(L.any (fun n => m.id == n.id))) ∧
      (∀ e ∈ st'.fwdIndex, e ∈ st.fwdIndex ∧ ∀ n ∈ L, e.src ≠ n.id ∧ e.dst ≠ n.id) := by
  intro L
  induction L with
  | nil =>
    intro st hc hnd _ _
    refine ⟨st, rfl, hc, hnd, rfl, by simp, ?_⟩
    intro e he
    exact ⟨he, by simp⟩
  | cons n L ih =>
    intro st hc hnd hmem hLnd
    obtain ⟨st1, hstep, h1nodes, h1cnt, h1c, h1edge⟩ :=
      purgeClassStep_spec hc (hmem n (by simp))
    rw [List.map_cons, List.nodup_cons] at hLnd
    have h1nd : (st1.nodes.map (fun n => n.id)).Nodup := by
      rw [h1nodes]
      exact List.Nodup.sublist (List.Sublist.map _ (List.filter_sublist _)) hnd
    have hmem1 : ∀ m ∈ L, m ∈ st1.nodes := by
      intro m hm
      rw [h1nodes]
      refine List.mem_filter.mpr ⟨hmem m (by simp [hm]), ?_⟩
      have hne : m.id ≠ n.id := by
        intro hEq
        exact hLnd.1 (hEq ▸ List.mem_map_of_mem _ hm)
      simp [hne]
    obtain ⟨st', hfold, hcons', hnd', hcnt', hnodes', hedges'⟩ :=
      ih st1 h1c h1nd hmem1 hLnd.2
    refine ⟨st', ?_, hcons', hnd', by rw [hcnt', h1cnt], ?_, ?_⟩
    · simp only [purgeFold, hstep]
      exact hfold
    · rw [hnodes', h1nodes, List.filter_filter]
      apply List.filter_congr
      intro m _
      cases hmn : (m.id == n.id) <;>
        cases hml : (L.any (fun x => m.id == x.id)) <;>
          simp [List.any_cons, hmn, hml]
    · intro e he
      obtain ⟨he1, hrest⟩ := hedges' e he
      obtain ⟨he0, hs1, hs2⟩ := h1edge e he1
      refine ⟨he0, ?_⟩
      intro m hm
      rcases List.mem_cons.mp hm with hm' | hm'
      · subst hm'
        exact ⟨hs1, hs2⟩
      · exact hrest m hm'

theorem purgeKindClass_spec (kc : KindClass) (st : State)
    (hc : st.fwdIndex = st.revIndex) (hnd : (st.nodes.map (fun n => n.id)).Nodup) :
    ∃ st', purgeKindClass kc st = .ok st' ∧
      st'.fwdIndex = st'.revIndex ∧
      (st'.nodes.map (fun n => n.id)).Nodup ∧
      st'.counter = st.counter ∧
      st'.nodes = st.nodes.filter (fun m => !(kindClass m.kind == kc)) ∧
      (∀ e ∈ st'.fwdIndex, e ∈ st.fwdIndex ∧
        ∀ n ∈ st.nodes, kindClass n.kind = kc → e.src ≠ n.id ∧ e.dst ≠ n.id) := by
  have hLmem : ∀ n ∈ st.nodes.filter (fun n => kindClass n.kind == kc), n ∈ st.nodes :=
    fun n hn => List.mem_of_mem_filter hn
  have hLnd : ((st.nodes.filter (fun n => kindClass n.kind == kc)).map
      (fun n => n.id)).Nodup :=
    List.Nodup.sublist (List.Sublist.map _ (List.filter_sublist _)) hnd
  obtain ⟨st', hfold, hcons', hnd', hcnt', hnodes', hedges'⟩ :=
    purgeFold_spec _ st hc hnd hLmem hLnd
  refine ⟨st', hfold, hcons', hnd', hcnt', ?_, ?_⟩
  · rw [hnodes']
    apply List.filter_congr
    intro m hm
    have hany : ((st.nodes.filter (fun n => kindClass n.kind == kc)).any
        (fun x => m.id == x.id)) = (kindClass m.kind == kc) := by
      cases hkc : (kindClass m.kind == kc) with
      | true =>
        apply List.any_eq_true.mpr
        exact ⟨m, List.mem_filter.mpr ⟨hm, hkc⟩, by simp⟩
      | false =>
        apply List.any_eq_false.mpr
        intro x hx
        obtain ⟨hxm, hxkc⟩ := List.mem_filter.mp hx
        intro hEq
        have hmx : m = x := id_inj hnd hm hxm (by simpa using hEq)
        rw [hmx, hxkc] at hkc
        cases hkc
    rw [hany]
  · intro e he
    obtain ⟨he0, hall⟩ := hedges' e he
    refine ⟨he0, ?_⟩
    intro n hn hkcn
    exact hall n (List.mem_filter.mpr ⟨hn, by simp [hkcn]⟩)

theorem delete_lineage_data_spec {s : State} (hi : Inv s) :
    ∃ s', delete_lineage_data s = .ok s' ∧
      s'.fwdIndex = [] ∧ s'.revIndex = [] ∧
      s'.nodes = s.nodes.filter (fun n => kindClass n.kind == KindClass.experiment) ∧
      s'.counter = s.counter ∧
      delete_lineage_data s' = .ok s' := by
  obtain ⟨s1, hp1, hc1, hnd1, hcnt1, hnodes1, hedges1⟩ :=
    purgeKindClass_spec KindClass.context s hi.cons hi.nodup
  obtain ⟨s2, hp2, hc2, hnd2, hcnt2, hnodes2, hedges2⟩ :=
    purgeKindClass_spec KindClass.action s1 hc1 hnd1
  obtain ⟨s3, hp3, hc3, hnd3, hcnt3, hnodes3, hedges3⟩ :=
    purgeKindClass_spec KindClass.artifact s2 hc2 hnd2
  have hrun : delete_lineage_data s = .ok s3 := by
    simp only [delete_lineage_data, hp1, hp2]
    exact hp3
  have hfwd : s3.fwdIndex = [] := by
    apply List.eq_nil_iff_forall_not_mem.mpr
    intro e he
    obtain ⟨he2, hart⟩ := hedges3 e he
    obtain ⟨he1, hact⟩ := hedges2 e he2
    obtain ⟨he0, hctx⟩ := hedges1 e he1
    obtain ⟨⟨a0, ha0, ha02⟩, ⟨b0, hb0, hb02⟩⟩ := hi.live e he0
    have hne := hi.noExpExp e he0 a0 ha0 b0 hb0 ha02 hb02
    have hone : kindClass a0.kind ≠ KindClass.experiment ∨
        kindClass b0.kind ≠ KindClass.experiment := by
      by_contra hcon
      push_neg at hcon
      exact hne ⟨(isExp_iff_class a0.kind).mpr hcon.1, (isExp_iff_class b0.kind).mpr hcon.2⟩
    have hkill : ∀ c, c ∈ s.nodes → kindClass c.kind ≠ KindClass.experiment →
        e.src ≠ c.id ∧ e.dst ≠ c.id := by
      intro c hcm hcexp
      cases hk : kindClass c.kind with
      | context => exact hctx c hcm hk
      | action =>
        refine hact c ?_ hk
        rw [hnodes1]
        exact List.mem_filter.mpr ⟨hcm, by simp [hk]⟩
      | artifact =>
        refine hart c ?_ hk
        rw [hnodes2, hnodes1]
        exact List.mem_filter.mpr ⟨List.mem_filter.mpr ⟨hcm, by simp [hk]⟩, by simp [hk]⟩
      | experiment => exact absurd hk hcexp
    rcases hone with hone | hone
    · exact (hkill a0 ha0 hone).1 ha02.symm
    · exact (hkill b0 hb0 hone).2 hb02.symm
  have hrev : s3.revIndex = [] := by
    rw [← hc3]
    exact hfwd
  have hsn : s3.nodes = s.nodes.filter (fun n => kindClass n.kind == KindClass.experiment) := by
    rw [hnodes3, hnodes2, hnodes1, List.filter_filter, List.filter_filter]
    apply List.filter_congr
    intro m _
    cases hk : kindClass m.kind <;> simp [hk]
  have hkidem : ∀ kc : KindClass,
      s3.nodes.filter (fun n => kindClass n.kind == kc) = [] →
      purgeKindClass kc s3 = .ok s3 := by
    intro kc hkc
    unfold purgeKindClass
    rw [hkc]
    rfl
  have hclassEmpty : ∀ kc : KindClass, kc ≠ KindClass.experiment →
      s3.nodes.filter (fun n => kindClass n.kind == kc) = [] := by
    intro kc hkc
    rw [hsn, List.filter_filter]
    apply List.eq_nil_iff_forall_not_mem.mpr
    intro m hm
    obtain ⟨_, hp⟩ := List.mem_filter.mp hm
    rw [Bool.and_eq_true, beq_iff_eq, beq_iff_eq] at hp
    exact hkc (hp.1 ▸ hp.2)
  have hidem : delete_lineage_data s3 = .ok s3 := by
    simp only [delete_lineage_data,
      hkidem KindClass.context (hclassEmpty KindClass.context (by simp)),
      hkidem KindClass.action (hclassEmpty KindClass.action (by simp))]
    exact hkidem KindClass.artifact (hclassEmpty KindClass.artifact (by simp))
  exact ⟨s3, hrun, hfwd, hrev, hsn, by rw [hcnt3, hcnt2, hcnt1], hidem⟩

/-! ## Behaviour of cascading deletion -/

theorem deleteNodeCascade_ok_inv {id : Nat} {s s' : State}
    (hc : s.fwdIndex = s.revIndex) (h : deleteNodeCascade id s = .ok s') :
    (∀ e ∈ s'.fwdIndex, e.src ≠ id ∧ e.dst ≠ id) ∧
    (∀ e ∈ s'.revIndex, e.src ≠ id ∧ e.dst ≠ id) ∧
    getNode id s' = .error .notFound := by
  unfold deleteNodeCascade at h
  split at h
  · exact absurd h (by simp)
  · obtain ⟨hS, hex, hdep⟩ := deleteNode_ok_inv h
    rw [hS]
    have hdac := @delete_associations_consistent id s hc
    refine ⟨?_, ?_, ?_⟩
    · intro e he
      exact delete_associations_clears hc he
    · intro e he
      rw [show ((⟨(delete_associations id s).nodes.filter (fun m => !(m.id == id)),
          (delete_associations id s).fwdIndex, (delete_associations id s).revIndex,
          (delete_associations id s).counter⟩ : State)).revIndex =
          (delete_associations id s).revIndex from rfl, ← hdac] at he
      exact delete_associations_clears hc he
    · have hnone : ((delete_associations id s).nodes.filter
          (fun m => !(m.id == id))).find? (fun m => m.id == id) = none := by
        apply List.find?_eq_none.mpr
        intro m hm
        have hp := (List.mem_filter.mp hm).2
        simp at hp ⊢
        exact hp
      simp [getNode, hnone]

theorem deleteNodeCascade_ok {id : Nat} {s : State}
    (hc : s.fwdIndex = s.revIndex) (hex : ∃ n ∈ s.nodes, n.id = id) :
    ∃ s', deleteNodeCascade id s = .ok s' := by
  obtain ⟨n, hn, hnid⟩ := hex
  have hexB : (delete_associations id s).nodes.any (fun m => m.id == id) = true := by
    rw [delete_associations_nodes]
    exact List.any_eq_true.mpr ⟨n, hn, by simp [hnid]⟩
  have hdac := @delete_associations_consistent id s hc
  have hfa : (delete_associations id s).fwdIndex.any
      (fun e => (e.src == id) || (e.dst == id)) = false := by
    apply List.any_eq_false.mpr
    intro e he
    have hcl := delete_associations_clears hc he
    simp [hcl.1, hcl.2]
  have hdep : ((delete_associations id s).fwdIndex.any
        (fun e => (e.src == id) || (e.dst == id))
      || (delete_associations id s).revIndex.any
        (fun e => (e.src == id) || (e.dst == id))) = false := by
    rw [← hdac, hfa]
    simp
  have hg : ∃ m, getNode id s = .ok m := by
    unfold getNode
    cases hf : s.nodes.find? (fun m => m.id == id) with
    | some m => exact ⟨m, rfl⟩
    | none =>
      have := List.find?_eq_none.mp hf n hn
      simp [hnid] at this
  obtain ⟨m, hm⟩ := hg
  have hrun : deleteNodeCascade id s = .ok
      ⟨(delete_associations id s).nodes.filter (fun m => !(m.id == id)),
        (delete_associations id s).fwdIndex, (delete_associations id s).revIndex,
        (delete_associations id s).counter⟩ := by
    unfold deleteNodeCascade
    rw [hm]
    exact deleteNode_ok hexB hdep
  exact ⟨_, hrun⟩

theorem deleteAssocIdem_absent {a b : Nat} {s : State}
    (hc : s.fwdIndex = s.revIndex)
    (habs : ∀ e ∈ s.fwdIndex, ¬(e.src = a ∧ e.dst = b)) :
    deleteAssocIdem a b s = s := by
  rw [deleteAssocIdem_eq_filter]
  have hf : s.fwdIndex.filter (fun e => !((e.src == a) && (e.dst == b))) =
      s.fwdIndex := by
    apply List.filter_eq_self.mpr
    intro e he
    have h2 := habs e he
    cases h3 : (e.src == a) <;> cases h4 : (e.dst == b) <;> simp_all
  have hr : s.revIndex.filter (fun e => !((e.src == a) && (e.dst == b))) =
      s.revIndex := by
    rw [← hc]
    exact hf
  rw [hf, hr]

theorem deleteAssociation_absent {a b : Nat} {s : State}
    (hc : s.fwdIndex = s.revIndex)
    (habs : ∀ e ∈ s.fwdIndex, ¬(e.src = a ∧ e.dst = b)) :
    deleteAssociation a b s = .error .notFound := by
  unfold deleteAssociation
  have hf : s.fwdIndex.any (fun e => (e.src == a) && (e.dst == b)) = false := by
    apply List.any_eq_false.mpr
    intro e he
    have h2 := habs e he
    cases h3 : (e.src == a) <;> cases h4 : (e.dst == b) <;> simp_all
  have hr : s.revIndex.any (fun e => (e.src == a) && (e.dst == b)) = false := by
    rw [← hc]
    exact hf
  simp [hf, hr]

theorem delete_associations_idem {id : Nat} {s : State}
    (hc : s.fwdIndex = s.revIndex) :
    delete_associations id (delete_associations id s) = delete_associations id s := by
  have hdac := @delete_associations_consistent id s hc
  have hLd : listAssociationsByDestination id (delete_associations id s) = [] := by
    unfold listAssociationsByDestination
    apply List.eq_nil_iff_forall_not_mem.mpr
    intro e he
    obtain ⟨hm, hp⟩ := List.mem_filter.mp he
    rw [← hdac] at hm
    have h2 := (delete_associations_clears hc hm).2
    simp at hp
    exact h2 hp
  have hLs : listAssociationsBySource id (delete_associations id s) = [] := by
    unfold listAssociationsBySource
    apply List.eq_nil_iff_forall_not_mem.mpr
    intro e he
    obtain ⟨hm, hp⟩ := List.mem_filter.mp he
    have h2 := (delete_associations_clears hc hm).1
    simp at hp
    exact h2 hp
  show delEdges (delEdges (delete_associations id s)
      (listAssociationsByDestination id (delete_associations id s)))
    (listAssociationsBySource id (delEdges (delete_associations id s)
      (listAssociationsByDestination id (delete_associations id s)))) =
    delete_associations id s
  rw [hLd]
  show delEdges (delete_associations id s)
    (listAssociationsBySource id (delete_associations id s)) =
    delete_associations id s
  rw [hLs]
  rfl

/-! ## Behaviour of the traversal engine -/

theorem visitNew_fst (dpth : Nat) (visited : List Nat) (cs : List (Nat × TrDir × Edge)) :
    (visitNew dpth visited cs).1 =
      ((visitNew dpth visited cs).2.map (fun en => en.nodeId)).reverse ++ visited := by
  induction cs generalizing visited with
  | nil => simp [visitNew]
  | cons c cs ih =>
    obtain ⟨m, td, e⟩ := c
    simp only [visitNew]
    split
    · exact ih visited
    · rw [ih (m :: visited)]
      simp [List.reverse_cons, List.append_assoc]

theorem visitNew_fresh (dpth : Nat) (visited : List Nat)
    (cs : List (Nat × TrDir × Edge)) :
    ∀ x ∈ (visitNew dpth visited cs).2.map (fun en => en.nodeId), x ∉ visited := by
  induction cs generalizing visited with
  | nil => simp [visitNew]
  | cons c cs ih =>
    obtain ⟨m, td, e⟩ := c
    simp only [visitNew]
    split
    · exact ih visited
    · next hm =>
      intro x hx
      simp only [List.map_cons, List.mem_cons] at hx
      rcases hx with hx | hx
      · subst hx
        exact hm
      · intro hxv
        exact ih (m :: visited) x hx (List.mem_cons_of_mem _ hxv)

theorem visitNew_nodup (dpth : Nat) (visited : List Nat)
    (cs : List (Nat × TrDir × Edge)) :
    ((visitNew dpth visited cs).2.map (fun en => en.nodeId)).Nodup := by
  induction cs generalizing visited with
  | nil => simp [visitNew]
  | cons c cs ih =>
    obtain ⟨m, td, e⟩ := c
    simp only [visitNew]
    split
    · exact ih visited
    · rw [List.map_cons]
      refine List.nodup_cons.mpr ⟨?_, ih (m :: visited)⟩
      intro hmem
      exact visitNew_fresh dpth (m :: visited) cs m hmem (List.mem_cons_self m _)

theorem visitNew_sub (dpth : Nat) (visited : List Nat)
    (cs : List (Nat × TrDir × Edge)) :
    ∀ x ∈ (visitNew dpth visited cs).2.map (fun en => en.nodeId),
      x ∈ cs.map (fun c => c.1) := by
  induction cs generalizing visited with
  | nil => simp [visitNew]
  | cons c cs ih =>
    obtain ⟨m, td, e⟩ := c
    simp only [visitNew]
    split
    · intro x hx
      exact List.mem_cons_of_mem _ (ih visited x hx)
    · intro x hx
      simp only [List.map_cons, List.mem_cons] at hx ⊢
      rcases hx with hx | hx
      · exact Or.inl hx
      · exact Or.inr (ih (m :: visited) x hx)

theorem cands_sub (s : State) (dirn : Direction) (n : Nat) :
    ∀ x ∈ (cands s dirn n).map (fun c => c.1), x ∈ univ s := by
  intro x hx
  obtain ⟨c, hc, hcx⟩ := List.mem_map.mp hx
  unfold cands at hc
  rw [← hcx]
  rcases List.mem_append.mp hc with hc' | hc'
  · split at hc'
    · obtain ⟨e, he, hec⟩ := List.mem_map.mp hc'
      rw [← hec]
      unfold univ
      rw [List.mem_toFinset]
      exact List.mem_append_left _
        (List.mem_map_of_mem _ (List.mem_of_mem_filter he))
    · exact absurd hc' (by simp)
  · split at hc'
    · obtain ⟨e, he, hec⟩ := List.mem_map.mp hc'
      rw [← hec]
      unfold univ
      rw [List.mem_toFinset]
      exact List.mem_append_right _
        (List.mem_map_of_mem _ (List.mem_of_mem_filter he))
    · exact absurd hc' (by simp)

theorem card_drop (U : Finset Nat) (q visited : List Nat)
    (hsub : ∀ x ∈ q, x ∈ U) (hfresh : ∀ x ∈ q, x ∉ visited) (hnd : q.Nodup) :
    (U \ (q.reverse ++ visited).toFinset).card + q.length =
      (U \ visited.toFinset).card := by
  have hset : (q.reverse ++ visited).toFinset = q.toFinset ∪ visited.toFinset := by
    rw [List.toFinset_append, List.toFinset_reverse]
  rw [hset]
  have hq : q.toFinset ⊆ U \ visited.toFinset := by
    intro x hx
    rw [List.mem_toFinset] at hx
    refine Finset.mem_sdiff.mpr ⟨hsub x hx, ?_⟩
    rw [List.mem_toFinset]
    exact hfresh x hx
  have hdiff : U \ (q.toFinset ∪ visited.toFinset) =
      (U \ visited.toFinset) \ q.toFinset := by
    ext x
    simp only [Finset.mem_sdiff, Finset.mem_union]
    tauto
  rw [hdiff, Finset.card_sdiff hq]
  have hle := Finset.card_le_card hq
  rw [List.toFinset_card_of_nodup hnd] at hle ⊢
  omega

theorem bfs_complete (s : State) (dirn : Direction) (md : Option Nat) :
    ∀ (fuel : Nat) (visited : List Nat) (acc : List Entry) (queue : List (Nat × Nat)),
    ((univ s) \ visited.toFinset).card + queue.length ≤ fuel →
    (bfs s dirn md fuel visited acc queue).2 = [] := by
  intro fuel
  induction fuel with
  | zero =>
    intro visited acc queue hle
    have hq : queue = [] := List.length_eq_zero.mp (by omega)
    simp [bfs, hq]
  | succ fuel ih =>
    intro visited acc queue hle
    match queue with
    | [] => simp [bfs]
    | (n, d) :: rest =>
      simp only [List.length_cons] at hle
      simp only [bfs]
      split
      · apply ih
        omega
      · apply ih
        rw [visitNew_fst, List.length_append, List.length_map]
        have hids_sub : ∀ x ∈ (visitNew (d + 1) visited (cands s dirn n)).2.map
            (fun en => en.nodeId), x ∈ univ s := by
          intro x hx
          exact cands_sub s dirn n x (visitNew_sub _ _ _ x hx)
        have hcard := card_drop (univ s)
          ((visitNew (d + 1) visited (cands s dirn n)).2.map (fun en => en.nodeId))
          visited hids_sub (visitNew_fresh _ _ _) (visitNew_nodup _ _ _)
        rw [List.length_map] at hcard
        omega

theorem bfs_report (s : State) (dirn : Direction) (md : Option Nat) (startId : Nat) :
    ∀ (fuel : Nat) (visited : List Nat) (acc : List Entry) (queue : List (Nat × Nat)),
    startId ∈ visited →
    (∀ x ∈ acc.map (fun en => en.nodeId), x ∈ visited ∧ x ≠ startId) →
    (acc.map (fun en => en.nodeId)).Nodup →
    ((bfs s dirn md fuel visited acc queue).1.map (fun en => en.nodeId)).Nodup ∧
      startId ∉ (bfs s dirn md fuel visited acc queue).1.map (fun en => en.nodeId) := by
  intro fuel
  induction fuel with
  | zero =>
    intro visited acc queue hsv hacc hnd
    exact ⟨hnd, fun hmem => (hacc startId hmem).2 rfl⟩
  | succ fuel ih =>
    intro visited acc queue hsv hacc hnd
    match queue with
    | [] => exact ⟨hnd, fun hmem => (hacc startId hmem).2 rfl⟩
    | (n, d) :: rest =>
      simp only [bfs]
      split
      · exact ih visited acc rest hsv hacc hnd
      · apply ih
        · rw [visitNew_fst]
          exact List.mem_append_right _ hsv
        · intro x hx
          rw [List.map_append] at hx
          rcases List.mem_append.mp hx with hx | hx
          · obtain ⟨hv, hs⟩ := hacc x hx
            refine ⟨?_, hs⟩
            rw [visitNew_fst]
            exact List.mem_append_right _ hv
          · constructor
            · rw [visitNew_fst]
              apply List.mem_append_left
              rw [List.mem_reverse]
              exact hx
            · intro hEq
              exact visitNew_fresh _ _ _ x hx (hEq ▸ hsv)
        · rw [List.map_append]
          refine List.Nodup.append hnd (visitNew_nodup _ _ _) ?_
          intro x hx1 hx2
          exact visitNew_fresh _ _ _ x hx2 (hacc x hx1).1

/-! ## Reachability of the concrete scenario states -/

theorem reachable_stepNode {s : State} (k : Kind) (nm : String) (h : Reachable s) :
    Reachable (stepNode k nm s) := by
  unfold stepNode
  cases hc : createNode k nm "t" none [] true s with
  | ok p => exact Reachable.stepCreateNode h hc
  | error er => exact h

theorem reachable_stepAssoc {s : State} (a b : Nat) (ty : Option AssocType)
    (h : Reachable s) : Reachable (stepAssoc a b ty s) := by
  unfold stepAssoc
  cases hc : createAssociation a b ty true s with
  | ok p => exact Reachable.stepCreateAssociation h hc
  | error er => exact h

theorem reachable_scenarioState : Reachable scenarioState := by
  unfold scenarioState
  apply reachable_stepAssoc
  apply reachable_stepNode
  apply reachable_stepAssoc
  apply reachable_stepAssoc
  apply reachable_stepNode
  apply reachable_stepNode
  apply reachable_stepAssoc
  apply reachable_stepNode
  apply reachable_stepNode
  exact Reachable.init

theorem reachable_expState : Reachable expState := by
  unfold expState
  exact reachable_stepNode _ _ (reachable_stepNode _ _ Reachable.init)

theorem reachable_mixState : Reachable mixState := by
  unfold mixState
  exact reachable_stepAssoc _ _ _
    (reachable_stepNode _ _ (reachable_stepNode _ _ Reachable.init))

theorem reachable_capStateN : ∀ n : Nat, Reachable (capStateN n) := by
  intro n
  induction n with
  | zero =>
    show Reachable capState0
    unfold capState0
    exact reachable_stepNode _ _ (reachable_stepNode _ _ Reachable.init)
  | succ n ih =>
    unfold capStateN
    rw [Function.iterate_succ_apply']
    exact reachable_stepAssoc _ _ _ ih

/-! ## The association ceiling is attainable -/

theorem stepAssoc_ok {a b : Nat} {ty : Option AssocType} {s : State} {p : Edge × State}
    (h : createAssociation a b ty true s = .ok p) : stepAssoc a b ty s = p.2 := by
  unfold stepAssoc
  rw [h]

theorem stepAssoc_err {a b : Nat} {ty : Option AssocType} {s : State} {er : Err}
    (h : createAssociation a b ty true s = .error er) : stepAssoc a b ty s = s := by
  unfold stepAssoc
  rw [h]

theorem capIter : ∀ n : Nat, (capStep^[n] capState0).nodes = capState0.nodes ∧
    countManualAssocs (capStep^[n] capState0) = min n 6000 := by
  intro n
  induction n with
  | zero => exact ⟨rfl, by decide⟩
  | succ n ih =>
    obtain ⟨hn, hc⟩ := ih
    rw [Function.iterate_succ_apply']
    have hfa : (capStep^[n] capState0).nodes.find? (fun m => m.id == 0) =
        some ⟨0, .artifact, "a", "t", none, [], 0, true⟩ := by
      rw [hn]; rfl
    have hfb : (capStep^[n] capState0).nodes.find? (fun m => m.id == 1) =
        some ⟨1, .artifact, "b", "t", none, [], 1, true⟩ := by
      rw [hn]; rfl
    by_cases hlt : n < 6000
    · have hcap : assocCapReached (capStep^[n] capState0) = false := by
        have hlt2 : countManualAssocs (capStep^[n] capState0) < 6000 := by
          rw [hc]; omega
        unfold assocCapReached
        simpa using hlt2
      have hok := @createAssociation_ok 0 1 none true (capStep^[n] capState0)
        ⟨0, .artifact, "a", "t", none, [], 0, true⟩
        ⟨1, .artifact, "b", "t", none, [], 1, true⟩ hfa hfb (by decide) (by simp [hcap])
      have hstep : capStep (capStep^[n] capState0) =
          (⟨(capStep^[n] capState0).nodes,
            (capStep^[n] capState0).fwdIndex ++
              [⟨0, 1, none, (capStep^[n] capState0).counter, true⟩],
            (capStep^[n] capState0).revIndex ++
              [⟨0, 1, none, (capStep^[n] capState0).counter, true⟩],
            (capStep^[n] capState0).counter + 1⟩ : State) := stepAssoc_ok hok
      rw [hstep]
      refine ⟨hn, ?_⟩
      show List.countP (fun e => e.manual) ((capStep^[n] capState0).fwdIndex ++
        [⟨0, 1, none, (capStep^[n] capState0).counter, true⟩]) = min (n + 1) 6000
      rw [List.countP_append]
      have hone : List.countP (fun e => e.manual)
          [(⟨0, 1, none, (capStep^[n] capState0).counter, true⟩ : Edge)] = 1 := by
        simp [List.countP_cons]
      rw [hone]
      have hc' : List.countP (fun e => e.manual) (capStep^[n] capState0).fwdIndex =
          min n 6000 := hc
      rw [hc']
      omega
    · have hcap : assocCapReached (capStep^[n] capState0) = true := by
        have hge : 6000 ≤ countManualAssocs (capStep^[n] capState0) := by
          rw [hc]; omega
        unfold assocCapReached
        simpa using hge
      have herr := @createAssociation_capErr 0 1 none (capStep^[n] capState0)
        ⟨0, .artifact, "a", "t", none, [], 0, true⟩
        ⟨1, .artifact, "b", "t", none, [], 1, true⟩ hfa hfb (by decide) hcap
      have hstep : capStep (capStep^[n] capState0) = capStep^[n] capState0 :=
        stepAssoc_err herr
      rw [hstep]
      refine ⟨hn, ?_⟩
      rw [hc]
      omega

/-! ## The claims -/

/-- C1: In the graph built by creating Context `C` (id 0), Action `A` (id 1),
an edge `C→A` of type `AssociatedWith`, Artifacts `I1` (id 3) and `I2` (id 4)
with edges `I1→A` and `I2→A` of default (omitted) type, and Artifact `M`
(id 7) with an edge `A→M`, the call `TraverseLineage(A, Both)` reports exactly
the four nodes `M` (descendant, depth 1) and `C`, `I1`, `I2` (each an ancestor
at depth 1), in BFS order, and no other nodes. -/
theorem claim1_scenario_traversal :
    traverseLineage scenarioState 1 .both none = .ok
      [⟨7, 1, .descendant, ⟨1, 7, none, 8, true⟩⟩,
       ⟨0, 1, .ancestor, ⟨0, 1, some .associatedWith, 2, true⟩⟩,
       ⟨3, 1, .ancestor, ⟨3, 1, none, 5, true⟩⟩,
       ⟨4, 1, .ancestor, ⟨4, 1, none, 6, true⟩⟩] := by
  rfl

/-- C2: immediately after a successful `CreateAssociation(a, b, T)` in a
reachable state, the new edge is contained in `ListAssociationsBySource(a)`
and in `ListAssociationsByDestination(b)`, and the forward and reverse
indexes are consistent with each other. -/
theorem claim2_roundtrip {s : State} {a b : Nat} {ty : Option AssocType}
    {man : Bool} {e : Edge} {s' : State} (hr : Reachable s)
    (h : createAssociation a b ty man s = .ok (e, s')) :
    e ∈ listAssociationsBySource a s' ∧
      e ∈ listAssociationsByDestination b s' ∧
      s'.fwdIndex = s'.revIndex := by
  have hi := inv_of_reachable hr
  obtain ⟨hE, hS, _⟩ := createAssociation_ok_inv h
  subst hE
  subst hS
  refine ⟨?_, ?_, ?_⟩
  · unfold listAssociationsBySource
    exact List.mem_filter.mpr ⟨List.mem_append_right _ (by simp), by simp⟩
  · unfold listAssociationsByDestination
    exact List.mem_filter.mpr ⟨List.mem_append_right _ (by simp), by simp⟩
  · show s.fwdIndex ++ _ = s.revIndex ++ _
    rw [hi.cons]

/-- C2 witness: adding the association `C → M` (`0 → 7`, type `Produced`) to
the scenario state. -/
theorem claim2_roundtrip_witness :
    (⟨0, 7, some .produced, 9, true⟩ : Edge) ∈
        listAssociationsBySource 0 scenarioPlus ∧
      (⟨0, 7, some .produced, 9, true⟩ : Edge) ∈
        listAssociationsByDestination 7 scenarioPlus ∧
      scenarioPlus.fwdIndex = scenarioPlus.revIndex :=
  claim2_roundtrip reachable_scenarioState
    (show createAssociation 0 7 (some .produced) true scenarioState =
      .ok (⟨0, 7, some .produced, 9, true⟩, scenarioPlus) from rfl)

/-- C3: `CreateAssociation` between two nodes that both resolve to
`ExperimentEntity` kind fails with `InvalidExperimentLink` for every
association type, and consequently no reachable state contains an edge (in
either index) whose two endpoints are both `ExperimentEntity` nodes. -/
theorem claim3_no_experiment_links {s : State} (hr : Reachable s) :
    (∀ (a b : Nat) (ty : Option AssocType) (man : Bool) (nA nB : Node),
      getNode a s = .ok nA → getNode b s = .ok nB →
      isExpEntity nA.kind = true → isExpEntity nB.kind = true →
      createAssociation a b ty man s = .error .invalidExperimentLink) ∧
    (∀ e, (e ∈ s.fwdIndex ∨ e ∈ s.revIndex) → ∀ a ∈ s.nodes, ∀ b ∈ s.nodes,
      a.id = e.src → b.id = e.dst →
      ¬(isExpEntity a.kind = true ∧ isExpEntity b.kind = true)) := by
  have hi := inv_of_reachable hr
  constructor
  · intro a b ty man nA nB hga hgb hA hB
    exact createAssociation_expErr (getNode_eq_ok.mp hga) (getNode_eq_ok.mp hgb) hA hB
  · intro e he a ha b hb h1 h2
    rcases he with he | he
    · exact hi.noExpExp e he a ha b hb h1 h2
    · rw [← hi.cons] at he
      exact hi.noExpExp e he a ha b hb h1 h2

/-- C3 witness: linking the Experiment (id 0) to its Trial (id 1) fails. -/
theorem claim3_no_experiment_links_witness :
    createAssociation 0 1 (some .associatedWith) true expState =
      .error .invalidExperimentLink :=
  (claim3_no_experiment_links reachable_expState).1 0 1 (some .associatedWith) true
    ⟨0, .experimentEntity .experiment, "E", "t", none, [], 0, true⟩
    ⟨1, .experimentEntity .trial, "T", "t", none, [], 1, true⟩ rfl rfl rfl rfl

/-- C4: in every reachable state the manual-entity counts respect the
ceilings (Artifacts 6000, Contexts 500, Actions 3000, Associations 6000); a
manual `CreateNode` or `CreateAssociation` at its ceiling fails with
`CapacityExceeded` (and, the operations being functional, returns no changed
state); automatic creations are excluded from the counters and never fail. -/
theorem claim4_capacity {s : State} (hr : Reachable s) :
    (countManualNodes .artifact s ≤ 6000 ∧ countManualNodes .context s ≤ 500 ∧
      countManualNodes .action s ≤ 3000 ∧ countManualAssocs s ≤ 6000) ∧
    (∀ nm tl su pr, 6000 ≤ countManualNodes .artifact s →
      createNode .artifact nm tl su pr true s = .error .capacityExceeded) ∧
    (∀ nm tl su pr, 500 ≤ countManualNodes .context s →
      createNode .context nm tl su pr true s = .error .capacityExceeded) ∧
    (∀ nm tl su pr, 3000 ≤ countManualNodes .action s →
      createNode .action nm tl su pr true s = .error .capacityExceeded) ∧
    (∀ a b ty nA nB, getNode a s = .ok nA → getNode b s = .ok nB →
      (isExpEntity nA.kind && isExpEntity nB.kind) = false →
      6000 ≤ countManualAssocs s →
      createAssociation a b ty true s = .error .capacityExceeded) ∧
    (∀ k nm tl su pr, ∃ p, createNode k nm tl su pr false s = .ok p) := by
  have hi := inv_of_reachable hr
  refine ⟨hi.caps, ?_, ?_, ?_, ?_, ?_⟩
  · intro nm tl su pr hge
    apply createNode_capErr
    simp only [kindClass, nodeCapReached, capOf]
    simpa using hge
  · intro nm tl su pr hge
    apply createNode_capErr
    simp only [kindClass, nodeCapReached, capOf]
    simpa using hge
  · intro nm tl su pr hge
    apply createNode_capErr
    simp only [kindClass, nodeCapReached, capOf]
    simpa using hge
  · intro a b ty nA nB hga hgb hx hge
    apply createAssociation_capErr (getNode_eq_ok.mp hga) (getNode_eq_ok.mp hgb) hx
    unfold assocCapReached
    simpa using hge
  · intro k nm tl su pr
    exact ⟨_, createNode_auto⟩

/-- C4 witness: the capacity statement instantiated at the empty catalog. -/
theorem claim4_capacity_witness :
    (countManualNodes .artifact initState ≤ 6000 ∧
      countManualNodes .context initState ≤ 500 ∧
      countManualNodes .action initState ≤ 3000 ∧
      countManualAssocs initState ≤ 6000) ∧
    (∀ nm tl su pr, 6000 ≤ countManualNodes .artifact initState →
      createNode .artifact nm tl su pr true initState = .error .capacityExceeded) ∧
    (∀ nm tl su pr, 500 ≤ countManualNodes .context initState →
      createNode .context nm tl su pr true initState = .error .capacityExceeded) ∧
    (∀ nm tl su pr, 3000 ≤ countManualNodes .action initState →
      createNode .action nm tl su pr true initState = .error .capacityExceeded) ∧
    (∀ a b ty nA nB, getNode a initState = .ok nA → getNode b initState = .ok nB →
      (isExpEntity nA.kind && isExpEntity nB.kind) = false →
      6000 ≤ countManualAssocs initState →
      createAssociation a b ty true initState = .error .capacityExceeded) ∧
    (∀ k nm tl su pr, ∃ p, createNode k nm tl su pr false initState = .ok p) :=
  claim4_capacity Reachable.init

/-- C5: in a reachable state, after `DeleteNodeCascade(id)` returns `Ok`, no
edge in the forward or reverse index references `id` as source or
destination, and `GetNode(id)` fails with `NotFound` (the cascade removes
every touching edge before deleting the node itself). -/
theorem claim5_cascade_clears {s s' : State} {id : Nat} (hr : Reachable s)
    (h : deleteNodeCascade id s = .ok s') :
    (∀ e ∈ s'.fwdIndex, e.src ≠ id ∧ e.dst ≠ id) ∧
    (∀ e ∈ s'.revIndex, e.src ≠ id ∧ e.dst ≠ id) ∧
    getNode id s' = .error .notFound :=
  deleteNodeCascade_ok_inv (inv_of_reachable hr).cons h

/-- C5 witness: cascade-deleting the Action `A` (id 1) of the scenario. -/
theorem claim5_cascade_clears_witness :
    (∀ e ∈ cascadedScenario.fwdIndex, e.src ≠ 1 ∧ e.dst ≠ 1) ∧
    (∀ e ∈ cascadedScenario.revIndex, e.src ≠ 1 ∧ e.dst ≠ 1) ∧
    getNode 1 cascadedScenario = .error .notFound :=
  claim5_cascade_clears reachable_scenarioState rfl

/-- C6: cascading deletion treats an already-absent edge as success: deleting
an absent association inside a cascade leaves the state unchanged (where the
plain `DeleteAssociation` would report `NotFound`), `delete_associations` is
idempotent, and the cascade of any existing node completes with `Ok`. -/
theorem claim6_idempotent_cleanup {s : State} (hr : Reachable s) :
    (∀ a b : Nat, (∀ e ∈ s.fwdIndex, ¬(e.src = a ∧ e.dst = b)) →
      deleteAssocIdem a b s = s ∧ deleteAssociation a b s = .error .notFound) ∧
    (∀ id : Nat, delete_associations id (delete_associations id s) =
      delete_associations id s) ∧
    (∀ n ∈ s.nodes, ∃ s', deleteNodeCascade n.id s = .ok s') := by
  have hi := inv_of_reachable hr
  refine ⟨?_, ?_, ?_⟩
  · intro a b habs
    exact ⟨deleteAssocIdem_absent hi.cons habs, deleteAssociation_absent hi.cons habs⟩
  · intro id
    exact delete_associations_idem hi.cons
  · intro n hn
    exact deleteNodeCascade_ok hi.cons ⟨n, hn, rfl⟩

/-- C6 witness: in the scenario state, deleting the absent edge `100 → 200`
is a tolerated no-op, `delete_associations` of node 1 is idempotent, and the
cascade of Artifact `M` (id 7) completes with `Ok`. -/
theorem claim6_idempotent_cleanup_witness :
    (deleteAssocIdem 100 200 scenarioState = scenarioState ∧
      deleteAssociation 100 200 scenarioState = .error .notFound) ∧
    (delete_associations 1 (delete_associations 1 scenarioState) =
      delete_associations 1 scenarioState) ∧
    (∃ s', deleteNodeCascade 7 scenarioState = .ok s') :=
  ⟨(claim6_idempotent_cleanup reachable_scenarioState).1 100 200 (by decide),
   (claim6_idempotent_cleanup reachable_scenarioState).2.1 1,
   (claim6_idempotent_cleanup reachable_scenarioState).2.2
     ⟨7, .artifact, "M", "t", none, [], 7, true⟩ (by decide)⟩

/-- C7: for every start node, graph state (cycles included) and depth bound,
the breadth-first traversal runs to completion — the frontier of its
fuel-bounded loop is exhausted, the fuel never being the limiting factor —
and a successful `TraverseLineage` reports each node at most once and never
re-reports the start node, thanks to the visited set seeded with `startId`. -/
theorem claim7_traversal_terminates (s : State) (startId : Nat)
    (dirn : Direction) (md : Option Nat) :
    (bfs s dirn md (fuelFor s) [startId] [] [(startId, 0)]).2 = [] ∧
    (∀ r, traverseLineage s startId dirn md = .ok r →
      (r.map (fun en => en.nodeId)).Nodup ∧
      startId ∉ r.map (fun en => en.nodeId)) := by
  constructor
  · apply bfs_complete
    unfold fuelFor
    have hsub : (univ s) \ ([startId].toFinset) ⊆ univ s := Finset.sdiff_subset
    have hle := Finset.card_le_card hsub
    simp only [List.length_cons, List.length_nil]
    omega
  · intro r h
    unfold traverseLineage at h
    split at h
    · exact absurd h (by simp)
    · simp only [Except.ok.injEq] at h
      rw [← h]
      exact bfs_report s dirn md startId (fuelFor s) [startId] [] [(startId, 0)]
        (by simp) (by simp) (by simp)

/-- C7 witness: the scenario traversal from `A` (id 1) runs to completion and
reports the four discovered nodes without repetition. -/
theorem claim7_traversal_terminates_witness :
    (bfs scenarioState .both none (fuelFor scenarioState) [1] [] [(1, 0)]).2 = [] ∧
    (([⟨7, 1, .descendant, ⟨1, 7, none, 8, true⟩⟩,
       ⟨0, 1, .ancestor, ⟨0, 1, some .associatedWith, 2, true⟩⟩,
       ⟨3, 1, .ancestor, ⟨3, 1, none, 5, true⟩⟩,
       ⟨4, 1, .ancestor, ⟨4, 1, none, 6, true⟩⟩] : List Entry).map
        (fun en => en.nodeId)).Nodup ∧
      1 ∉ ([⟨7, 1, .descendant, ⟨1, 7, none, 8, true⟩⟩,
       ⟨0, 1, .ancestor, ⟨0, 1, some .associatedWith, 2, true⟩⟩,
       ⟨3, 1, .ancestor, ⟨3, 1, none, 5, true⟩⟩,
       ⟨4, 1, .ancestor, ⟨4, 1, none, 6, true⟩⟩] : List Entry).map
        (fun en => en.nodeId) :=
  ⟨(claim7_traversal_terminates scenarioState 1 .both none).1,
   (claim7_traversal_terminates scenarioState 1 .both none).2 _ rfl⟩

/-- C8 counterexample: the implemented bulk purge (`delete_lineage_data`)
does not empty the Node Store: on a reachable state holding one Experiment
and one Trial it returns `Ok` yet leaves both nodes in place, refuting
"after PurgeCatalog() the Node Store and the Edge Store are both empty". -/
theorem claim8_purge_counterexample :
    delete_lineage_data expState = .ok expState ∧ expState.nodes ≠ [] := by
  constructor
  · rfl
  · decide

/-- C8 (amended): after `delete_lineage_data` returns `Ok` on a reachable
state, the Edge Store (both indexes) is empty and the Node Store retains
exactly the `ExperimentEntity` nodes (Contexts, Actions and Artifacts are all
removed); the purge is idempotent — running it again returns the same state. -/
theorem claim8_purge_amended {s : State} (hr : Reachable s) :
    ∃ s', delete_lineage_data s = .ok s' ∧
      s'.fwdIndex = [] ∧ s'.revIndex = [] ∧
      s'.nodes = s.nodes.filter (fun n => kindClass n.kind == KindClass.experiment) ∧
      delete_lineage_data s' = .ok s' := by
  obtain ⟨s', h1, h2, h3, h4, _, h6⟩ := delete_lineage_data_spec (inv_of_reachable hr)
  exact ⟨s', h1, h2, h3, h4, h6⟩

/-- C8 witness: purging a state with an Experiment, an Artifact and one
association between them. -/
theorem claim8_purge_amended_witness :
    ∃ s', delete_lineage_data mixState = .ok s' ∧
      s'.fwdIndex = [] ∧ s'.revIndex = [] ∧
      s'.nodes = mixState.nodes.filter
        (fun n => kindClass n.kind == KindClass.experiment) ∧
      delete_lineage_data s' = .ok s' :=
  claim8_purge_amended reachable_mixState

/-- C9: the implemented bulk purge cascades only Context, Action and Artifact
nodes and never deletes `ExperimentEntity` nodes — the final Node Store is
exactly the experiment entities of the initial one — yet it still leaves the
Edge Store empty, because no edge of a reachable state connects two
`ExperimentEntity` nodes, so every edge is removed by a purged neighbour's
cascade. -/
theorem claim9_purge_frame {s : State} (hr : Reachable s) :
    ∃ s', delete_lineage_data s = .ok s' ∧
      s'.nodes = s.nodes.filter (fun n => kindClass n.kind == KindClass.experiment) ∧
      s'.fwdIndex = [] ∧ s'.revIndex = [] := by
  obtain ⟨s', h1, h2, h3, h4, _, _⟩ := delete_lineage_data_spec (inv_of_reachable hr)
  exact ⟨s', h1, h4, h2, h3⟩

/-- C9 witness: purging the two-experiment state keeps both nodes. -/
theorem claim9_purge_frame_witness :
    ∃ s', delete_lineage_data expState = .ok s' ∧
      s'.nodes = expState.nodes.filter
        (fun n => kindClass n.kind == KindClass.experiment) ∧
      s'.fwdIndex = [] ∧ s'.revIndex = [] :=
  claim9_purge_frame reachable_expState

/-- C10 counterexample: with the manual association ceiling reached (6000
associations between artifacts 0 and 1, a reachable state), a further
`CreateAssociation` with omitted type between two existing
non-`ExperimentEntity` nodes does not succeed: it fails with
`CapacityExceeded`. -/
theorem claim10_untyped_counterexample :
    Reachable (capStateN 6000) ∧
    getNode 0 (capStateN 6000) = .ok ⟨0, .artifact, "a", "t", none, [], 0, true⟩ ∧
    getNode 1 (capStateN 6000) = .ok ⟨1, .artifact, "b", "t", none, [], 1, true⟩ ∧
    isExpEntity Kind.artifact = false ∧
    createAssociation 0 1 none true (capStateN 6000) = .error .capacityExceeded := by
  have hn := (capIter 6000).1
  have hc := (capIter 6000).2
  refine ⟨reachable_capStateN 6000, ?_, ?_, by decide, ?_⟩
  · have hf : (capStep^[6000] capState0).nodes.find? (fun m => m.id == 0) =
        some ⟨0, .artifact, "a", "t", none, [], 0, true⟩ := by
      rw [hn]
      rfl
    exact getNode_eq_ok.mpr hf
  · have hf : (capStep^[6000] capState0).nodes.find? (fun m => m.id == 1) =
        some ⟨1, .artifact, "b", "t", none, [], 1, true⟩ := by
      rw [hn]
      rfl
    exact getNode_eq_ok.mpr hf
  · have hcap : assocCapReached (capStep^[6000] capState0) = true := by
      unfold assocCapReached
      rw [hc]
      decide
    exact @createAssociation_capErr 0 1 none (capStep^[6000] capState0)
      ⟨0, .artifact, "a", "t", none, [], 0, true⟩
      ⟨1, .artifact, "b", "t", none, [], 1, true⟩
      (by rw [hn]; rfl) (by rw [hn]; rfl) (by decide) hcap

/-- C10 (amended): `CreateAssociation` with the association type omitted
between two existing non-`ExperimentEntity` nodes succeeds provided the
manual association ceiling is not yet reached; the created edge stores
`associationType = none` and is returned by both index listings. -/
theorem claim10_untyped_amended {s : State} {a b : Nat} {nA nB : Node}
    (hga : getNode a s = .ok nA) (hgb : getNode b s = .ok nB)
    (hA : isExpEntity nA.kind = false) (hB : isExpEntity nB.kind = false)
    (hcap : countManualAssocs s < 6000) :
    ∃ e s', createAssociation a b none true s = .ok (e, s') ∧
      e.assocType = none ∧ e ∈ listAssociationsBySource a s' ∧
      e ∈ listAssociationsByDestination b s' := by
  have hok := @createAssociation_ok a b none true s nA nB
    (getNode_eq_ok.mp hga) (getNode_eq_ok.mp hgb) (by simp [hA, hB])
    (by simp [assocCapReached]; omega)
  refine ⟨_, _, hok, rfl, ?_, ?_⟩
  · unfold listAssociationsBySource
    exact List.mem_filter.mpr ⟨List.mem_append_right _ (by simp), by simp⟩
  · unfold listAssociationsByDestination
    exact List.mem_filter.mpr ⟨List.mem_append_right _ (by simp), by simp⟩

/-- C10 witness: a type-omitted association `I1 → M` (`3 → 7`) in the
scenario state. -/
theorem claim10_untyped_amended_witness :
    ∃ e s', createAssociation 3 7 none true scenarioState = .ok (e, s') ∧
      e.assocType = none ∧ e ∈ listAssociationsBySource 3 s' ∧
      e ∈ listAssociationsByDestination 7 s' :=
  claim10_untyped_amended rfl rfl rfl rfl (by decide)

end SMLineage
